import Mathlib

/-!
# Shiplog autopilot — shallow embedding and verification

This development embeds the core of `src/commands/autopilot.ts` (the autopilot
control loop of the shiplog CLI) in Lean 4 and settles the claims of the
specification against it.

Modelling conventions:
* JavaScript strings are modelled by `String` (a list of characters); the
  string transformations used by the source (`toLowerCase`, `trim`, `slice`,
  `includes`, `indexOf`, insertion by `slice`-concatenation, and the one
  regex replacement of the skillbook timestamp) are defined executably over
  `List Char`.
* File-system state that the loop reads and writes (the sprint file, the
  sprint memory, the run state, the skillbook) is threaded explicitly through
  a `LoopState`; what the external world does during one iteration (the agent
  session's outcome, git observations, test execution, review verdicts) is an
  `IterationObs` record.
* `number` fields that hold commit counts are `Nat`; differences of commit
  counts (`commitsMade`) are `Int`, as in JavaScript arithmetic.
* Union string types (`"success" | "partial" | "failure"` …) are inductives;
  the TS value `"partial"` is the constructor `partialProgress`.
-/

set_option maxRecDepth 16384

namespace Shiplog

/-! ## String helpers with JavaScript semantics -/

/-- `s.toLowerCase()`: character-wise lowercasing. -/
def jsToLower (s : String) : String := ⟨s.data.map Char.toLower⟩

/-- `s.trim()`: strip leading and trailing whitespace. -/
def jsTrim (s : String) : String :=
  ⟨(s.data.dropWhile Char.isWhitespace).rdropWhile Char.isWhitespace⟩

/-- `s.slice(0, n)`: the first `n` characters. -/
def strTake (s : String) (n : Nat) : String := ⟨s.data.take n⟩

/-- `s.slice(-n)`: the last `n` characters (the whole string when shorter). -/
def strTakeRight (s : String) (n : Nat) : String := ⟨s.data.drop (s.data.length - n)⟩

/-- `hay.includes(pat)`: substring containment. -/
def strIncludes (hay pat : String) : Bool := decide (pat.data <:+: hay.data)

/-- First index (if any) at which `pat` occurs in a character list;
`cs.indexOf(pat)` with `-1` rendered as `none`. -/
def firstIdx (pat : List Char) : List Char → Option Nat
  | [] => if pat.isEmpty then some 0 else none
  | c :: cs =>
    if pat.isPrefixOf (c :: cs) then some 0
    else (firstIdx pat cs).map (· + 1)

/-- `cs.indexOf(pat, i)`: first occurrence at or after position `i`
(absolute index). -/
def idxFrom (pat cs : List Char) (i : Nat) : Option Nat :=
  (firstIdx pat (cs.drop i)).map (· + i)

/-- `cs.slice(0, i) + ins + cs.slice(i)`: insertion at position `i`. -/
def insertAt (cs ins : List Char) (i : Nat) : List Char :=
  cs.take i ++ ins ++ cs.drop i

/-! ## Data model (`autopilot.ts` interfaces) -/

/-- The `"success" | "partial" | "failure"` union of `SprintMemoryEntry.result`;
`partialProgress` models the TS string `"partial"`. -/
inductive MemResult
  | success
  | partialProgress
  | failure
deriving DecidableEq

/-- `SprintFeature`. -/
structure SprintFeature where
  id : String
  description : String
  passes : Bool
deriving DecidableEq

/-- The optional `context` block of a `Sprint`. -/
structure SprintContext where
  test_command : Option String
  quality_criteria : Option (List String)
deriving DecidableEq

/-- `Sprint`: one sprint file (`features` of `undefined` is modelled as `[]`). -/
structure Sprint where
  initiative : String
  status : String
  features : List SprintFeature
  context : Option SprintContext
deriving DecidableEq

/-- `SprintMemoryEntry`. -/
structure SprintMemoryEntry where
  iteration : Nat
  timestamp : String
  feature : String
  approach : String
  result : MemResult
  commits : Int
  learnings : List String
  failures : List String
  critique : Option String
deriving DecidableEq

/-- `SprintMemory`. -/
structure SprintMemory where
  initiative : String
  sprintFile : String
  started : String
  entries : List SprintMemoryEntry
deriving DecidableEq

/-- `SessionLog.status` union. -/
inductive SessionStatus
  | running
  | completed
  | stalled
  | error
  | timeout
deriving DecidableEq

/-- `SessionLog`. Optional TS fields are `Option`s; cost is kept as an
abstract rational. -/
structure SessionLog where
  sessionId : String
  iteration : Nat
  startTime : String
  endTime : Option String
  durationSeconds : Option Nat
  startCommits : Nat
  endCommits : Option Nat
  commitsMade : Option Int
  filesChanged : Option Nat
  sprintUpdated : Option Bool
  exitCode : Option Nat
  timedOut : Option Bool
  retriesUsed : Option Nat
  costUsd : Option ℚ
  inputTokens : Option Nat
  outputTokens : Option Nat
  status : SessionStatus
deriving DecidableEq

/-- `AutopilotState.status` union. -/
inductive RunStatus
  | running
  | completed
  | stalled
  | interrupted
deriving DecidableEq

/-- `AutopilotState` (the persisted run state). -/
structure AutopilotState where
  initiative : String
  started : String
  iterations : Nat
  totalCommits : Int
  stallCount : Nat
  sessions : List SessionLog
  currentSessionId : Option String
  totalCostUsd : Option ℚ
  totalDurationSeconds : Option Nat
  status : RunStatus
deriving DecidableEq

/-- The fresh `AutopilotState` built at the start of a non-resumed run. -/
def initialAutopilotState (initiative started : String) : AutopilotState :=
  { initiative := initiative
    started := started
    iterations := 0
    totalCommits := 0
    stallCount := 0
    sessions := []
    currentSessionId := none
    totalCostUsd := none
    totalDurationSeconds := none
    status := .running }

/-! ## `loadSprintMemory` -/

/-- What is on disk at `.shiplog/sprint-memory.json` when the run starts. -/
inductive StoredMemory
  | absent
  | malformed
  | valid (m : SprintMemory)

/-- Result of loading sprint memory: the memory handed to the loop, and
whether the pre-existing file was archived by a timestamped rename. -/
structure LoadMemoryResult where
  memory : SprintMemory
  archived : Bool
deriving DecidableEq

/-- A fresh, empty sprint memory. -/
def freshSprintMemory (initiative sprintFile now : String) : SprintMemory :=
  { initiative := initiative, sprintFile := sprintFile, started := now, entries := [] }

/-- `loadSprintMemory`: return the stored memory when it matches the current
initiative and sprint file; archive it (rename) and start fresh when it is for
a different sprint; on a missing or unparseable file, start fresh. -/
def loadSprintMemory (stored : StoredMemory) (initiative sprintFile now : String) :
    LoadMemoryResult :=
  match stored with
  | .absent => ⟨freshSprintMemory initiative sprintFile now, false⟩
  | .malformed => ⟨freshSprintMemory initiative sprintFile now, false⟩
  | .valid m =>
    if m.initiative = initiative ∧ m.sprintFile = sprintFile then ⟨m, false⟩
    else ⟨freshSprintMemory initiative sprintFile now, true⟩

/-! ## `analyzeSprintMemoryForLoops` -/

/-- `LoopAnalysis`. -/
structure LoopAnalysis where
  hasLoop : Bool
  warnings : List String
  blockedApproaches : List String
deriving DecidableEq

/-- Keys of a JS object in insertion order: deduplicate keeping the first
occurrence of each string. -/
def firstOccur : List String → List String
  | [] => []
  | x :: xs => x :: firstOccur (xs.filter (fun y => decide (y ≠ x)))
termination_by l => l.length
decreasing_by
  simp only [List.length_cons]
  exact Nat.lt_succ_of_le (List.length_filter_le _ _)

/-- Number of memory entries that are failures on the given feature. -/
def failureCount (entries : List SprintMemoryEntry) (feature : String) : Nat :=
  (entries.filter (fun e => decide (e.result = .failure ∧ e.feature = feature))).length

/-- The distinct features with at least one failure entry, in first-failure
order (the iteration order of the `featureFailures` record). -/
def failedFeatures (entries : List SprintMemoryEntry) : List String :=
  firstOccur ((entries.filter (fun e => decide (e.result = .failure))).map (·.feature))

/-- The blocking per-feature warning (≥ 3 failures). -/
def loopWarnStr (feature : String) (count : Nat) : String :=
  "⚠️ LOOP DETECTED: \"" ++ feature ++ "\" has failed " ++ toString count ++
    " times. Consider a different approach or human intervention."

/-- The lower-severity per-feature warning (exactly 2 failures). -/
def softWarnStr (feature : String) (count : Nat) : String :=
  "⚡ Warning: \"" ++ feature ++ "\" has failed " ++ toString count ++
    " times. Try a fundamentally different approach."

/-- The blocked-approaches entry recorded for a feature with ≥ 3 failures. -/
def repeatedAttemptsStr (feature : String) : String :=
  "Repeated attempts at \"" ++ feature ++ "\" with same approach"

/-- Warnings produced by the repeated-feature-failure pass. -/
def featureWarnings (entries : List SprintMemoryEntry) : List String :=
  (failedFeatures entries).flatMap fun f =>
    let c := failureCount entries f
    if 3 ≤ c then [loopWarnStr f c]
    else if 2 ≤ c then [softWarnStr f c]
    else []

/-- Blocked approaches produced by the repeated-feature-failure pass. -/
def featureBlocked (entries : List SprintMemoryEntry) : List String :=
  (failedFeatures entries).flatMap fun f =>
    if 3 ≤ failureCount entries f then [repeatedAttemptsStr f] else []

/-- Failure strings of the last 5 entries that mention a fix or revert. -/
def fixPatterns (entries : List SprintMemoryEntry) : List String :=
  (entries.drop (entries.length - 5)).flatMap fun e =>
    e.failures.filter fun s =>
      strIncludes (jsToLower s) "fix" || strIncludes (jsToLower s) "revert"

def oscWarnStr : String :=
  "🔄 OSCILLATION WARNING: Multiple fix/revert cycles detected. You may be in a fix loop."

def oscRecentStr (fixPats : List String) : String :=
  "   Recent fixes: " ++ String.intercalate ", " (fixPats.drop (fixPats.length - 3))

def oscBlockedStr : String := "Continuing the current fix/revert cycle"

/-- Warnings produced by the fix/revert-oscillation pass. -/
def oscWarnings (entries : List SprintMemoryEntry) : List String :=
  let fp := fixPatterns entries
  if 3 ≤ fp.length then [oscWarnStr, oscRecentStr fp] else []

/-- Blocked approaches produced by the fix/revert-oscillation pass. -/
def oscBlocked (entries : List SprintMemoryEntry) : List String :=
  if 3 ≤ (fixPatterns entries).length then [oscBlockedStr] else []

/-- `entry.approach.toLowerCase().trim().slice(0, 50)`. -/
def normalizeApproach (s : String) : String := strTake (jsTrim (jsToLower s)) 50

/-- How many entries share the given normalized approach. -/
def approachCount (entries : List SprintMemoryEntry) (a : String) : Nat :=
  (entries.filter (fun e => decide (normalizeApproach e.approach = a))).length

/-- The distinct normalized approaches, in first-occurrence order. -/
def approachKeys (entries : List SprintMemoryEntry) : List String :=
  firstOccur (entries.map (fun e => normalizeApproach e.approach))

def approachWarnStr (a : String) (c : Nat) : String :=
  "🔁 Similar approach tried " ++ toString c ++ " times: \"" ++ strTake a 40 ++ "...\""

/-- Warnings produced by the repeated-approach pass. -/
def approachWarnings (entries : List SprintMemoryEntry) : List String :=
  (approachKeys entries).flatMap fun a =>
    let c := approachCount entries a
    if 2 ≤ c then [approachWarnStr a c] else []

/-- Blocked approaches produced by the repeated-approach pass (the nested
`count >= 3` push inside the `count >= 2` branch). -/
def approachBlocked (entries : List SprintMemoryEntry) : List String :=
  (approachKeys entries).flatMap fun a =>
    if 3 ≤ approachCount entries a then [a] else []

/-- The predicate deciding `hasLoop`: a warning mentioning `LOOP DETECTED`
or `OSCILLATION`. -/
def isTriggerWarning (w : String) : Bool :=
  strIncludes w "LOOP DETECTED" || strIncludes w "OSCILLATION"

/-- `analyzeSprintMemoryForLoops`. -/
def analyzeSprintMemoryForLoops (memory : SprintMemory) : LoopAnalysis :=
  if memory.entries.length < 2 then ⟨false, [], []⟩
  else
    let warnings := featureWarnings memory.entries ++ oscWarnings memory.entries ++
      approachWarnings memory.entries
    let blocked := featureBlocked memory.entries ++ oscBlocked memory.entries ++
      approachBlocked memory.entries
    ⟨warnings.any isTriggerWarning, warnings, blocked⟩

/-! ## `runReviewSubAgent` -/

/-- `ReviewResult`. -/
structure ReviewResult where
  approved : Bool
  critique : String
  suggestions : List String
deriving DecidableEq

/-- How one review invocation ends, as the source distinguishes the cases:
the SDK query throws (internal error, including an abort fired by the review
timeout); the streamed response has no ```json block; the block's JSON fails
to parse; or a `ReviewResult` is parsed from the block. -/
inductive ReviewOutcome
  | error
  | noJsonBlock
  | jsonParseError
  | parsed (r : ReviewResult)

/-- The `ReviewResult` returned by `runReviewSubAgent` for each way the
invocation can end. -/
def reviewSubAgentResult : ReviewOutcome → ReviewResult
  | .error => ⟨true, "Review could not complete - continuing", []⟩
  | .noJsonBlock => ⟨true, "Review completed but no structured feedback provided", []⟩
  | .jsonParseError => ⟨true, "Review completed but no structured feedback provided", []⟩
  | .parsed r => r

/-! ## `runTestGate` -/

/-- The `package.json` of the working directory as the gate probes it. -/
inductive PkgJson
  | absent
  | malformed
  | parsed (testScript : Option String)

/-- The working directory facts and test execution the gate interacts with:
which probe files exist, and, for a command the gate runs through `execSync`,
whether it succeeds and what it prints. -/
structure TestEnv where
  pkg : PkgJson
  pytestIni : Bool
  cargoToml : Bool
  goMod : Bool
  exec : String → Bool × String

/-- `TestGateResult`. -/
structure TestGateResult where
  passed : Bool
  output : String
  command : String
deriving DecidableEq

/-- The npm placeholder test script that the gate does not count as a real
test command. -/
def npmDefaultTestScript : String := "echo \"Error: no test specified\" && exit 1"

/-- JS truthiness of an optional string (`undefined` and `""` are falsy). -/
def jsTruthy : Option String → Bool
  | none => false
  | some s => decide (s ≠ "")

/-- The auto-detection chain of `runTestGate`: the configured command when
truthy, then `npm test` for a real package.json test script, then `pytest`,
`cargo test`, `go test ./...` by probe files. -/
def detectTestCommand (env : TestEnv) (testCommand : Option String) : Option String :=
  let c0 : Option String := if jsTruthy testCommand then testCommand else none
  let c1 : Option String :=
    match c0 with
    | some c => some c
    | none =>
      match env.pkg with
      | .parsed (some s) =>
        if s ≠ "" ∧ s ≠ npmDefaultTestScript then some "npm test" else none
      | _ => none
  let c2 : Option String :=
    match c1 with
    | some c => some c
    | none => if env.pytestIni then some "pytest" else none
  let c3 : Option String :=
    match c2 with
    | some c => some c
    | none => if env.cargoToml then some "cargo test" else none
  match c3 with
  | some c => some c
  | none => if env.goMod then some "go test ./..." else none

/-- `runTestGate`: the gate result, and the command actually executed
(`none` when the gate passed without running anything). -/
def runTestGate (env : TestEnv) (testCommand : Option String) :
    TestGateResult × Option String :=
  match detectTestCommand env testCommand with
  | none =>
    (⟨true, "No test command configured or detected - skipping test gate", "none"⟩, none)
  | some command =>
    let r := env.exec command
    if r.1 then
      (⟨true, strTakeRight r.2 500, command⟩, some command)
    else
      (⟨false, strTakeRight r.2 1000, command⟩, some command)

/-! ## Skillbook (`extractLearnings`, `addCritiqueToSkillbook`) -/

/-- The text of the `extractLearnings` skillbook template before the
interpolated timestamp. -/
def tplPrefix : String :=
  "# Skillbook\n\n> Learnings accumulated across autopilot sessions. Updated automatically.\n\n## What Works\n\n<!-- Patterns that lead to successful outcomes -->\n\n## What To Avoid\n\n<!-- Patterns that caused issues -->\n\n## Patterns\n\n<!-- Common patterns observed in this codebase -->\n\n---\n\n*Last updated: "

/-- The skillbook template created by `extractLearnings` when the file is
missing (no Captain's Notes section). -/
def skillbookTemplate (now : String) : String := tplPrefix ++ now ++ "*\n"

/-- The skillbook template created by `addCritiqueToSkillbook` when the file
is missing (includes the Captain's Notes section). -/
def captainSkillbookTemplate (now : String) : String :=
  "# Skillbook\n\n> Learnings accumulated across autopilot sessions. Updated automatically.\n\n## What Works\n\n<!-- Patterns that lead to successful outcomes -->\n\n## What To Avoid\n\n<!-- Patterns that caused issues -->\n\n## Captain's Notes\n\n<!-- Issues caught during review -->\n\n## Patterns\n\n<!-- Common patterns observed in this codebase -->\n\n---\n\n*Last updated: " ++ now ++ "*\n"

/-- The literal matched by the `\*Last updated:` part of the timestamp
regex. -/
def stampPat : List Char := "*Last updated:".data

/-- Whether the regex `\*Last updated:.*\*` matches at the start of `cs`,
and the greedy match length if so: the pattern literal must be a prefix, and
the rest of the match runs to the last `*` on the same line at or beyond the
literal. -/
def validMatchLen (cs : List Char) : Option Nat :=
  if stampPat.isPrefixOf cs then
    let line := cs.takeWhile (fun c => decide (c ≠ '\n'))
    let stars := (List.range line.length).filter fun j =>
      decide (stampPat.length ≤ j) && decide (line.get? j = some '*')
    match stars.getLast? with
    | some j => some (j + 1)
    | none => none
  else none

/-- Leftmost match of `\*Last updated:.*\*` in `cs`: start position and
length. -/
def findStampMatch : List Char → Option (Nat × Nat)
  | [] => none
  | c :: cs =>
    match validMatchLen (c :: cs) with
    | some len => some (0, len)
    | none => (findStampMatch cs).map fun p => (p.1 + 1, p.2)

/-- `content.replace(/\*Last updated:.*\*/, "*Last updated: " + now + "*")`. -/
def replaceStamp (now : String) (cs : List Char) : List Char :=
  match findStampMatch cs with
  | none => cs
  | some (i, len) => cs.take i ++ ("*Last updated: " ++ now ++ "*").data ++ cs.drop (i + len)

/-- Insert `lines + "\n"` right after the first blank line at or beyond the
given section header, mirroring `content.indexOf(header)` followed by
`content.indexOf("\n\n", section) + 2` (which is `1` when no blank line is
found, since `-1 + 2` is truthy in JS). -/
def insertUnderSection (content : List Char) (header lines : String) : List Char :=
  match firstIdx header.data content with
  | none => content
  | some sec =>
    let ip : Nat :=
      match idxFrom "\n\n".data content sec with
      | some j => j + 2
      | none => 1
    insertAt content (lines ++ "\n").data ip

/-- The `- Tests added/updated: "msg"` lines of `extractLearnings`. -/
def successPatterns (msgs : List String) : List String :=
  msgs.filterMap fun msg =>
    if strIncludes (jsToLower msg) "test" && !strIncludes (jsToLower msg) "fix"
    then some ("- Tests added/updated: \"" ++ msg ++ "\"") else none

/-- The `- Needed fix: "msg"` lines of `extractLearnings`. -/
def failurePatterns (msgs : List String) : List String :=
  msgs.filterMap fun msg =>
    if strIncludes (jsToLower msg) "fix" || strIncludes (jsToLower msg) "revert"
    then some ("- Needed fix: \"" ++ msg ++ "\"") else none

/-- `extractLearnings`: the skillbook content on disk after the call, given
the content before it (`none` when the file did not exist). -/
def extractLearnings (skillbook : Option String) (commitMessages : List String)
    (now : String) : String :=
  let content0 : String :=
    match skillbook with
    | some c => c
    | none => skillbookTemplate now
  let succ := successPatterns commitMessages
  let failp := failurePatterns commitMessages
  if 0 < succ.length ∨ 0 < failp.length then
    let c1 :=
      if 0 < succ.length then
        insertUnderSection content0.data "## What Works" (String.intercalate "\n" succ)
      else content0.data
    let c2 :=
      if 0 < failp.length then
        insertUnderSection c1 "## What To Avoid" (String.intercalate "\n" failp)
      else c1
    ⟨replaceStamp now c2⟩
  else content0

/-- The Captain's Notes section inserted before `## Patterns` when absent. -/
def captainSectionText : String :=
  "## Captain's Notes\n\n<!-- Issues caught during review -->\n\n"

/-- The entry appended to Captain's Notes for one rejected review. -/
def critiqueEntry (date feature critique : String) (suggestions : List String) : String :=
  "### " ++ date ++ ": " ++ feature ++ "\n" ++
  "- **Issue**: " ++ critique ++ "\n" ++
  (if 0 < suggestions.length then
    "- **Suggestions**: " ++ String.intercalate "; " suggestions ++ "\n"
  else "") ++
  "\n"

/-- `addCritiqueToSkillbook`: the skillbook content on disk after the call.
The critique entry is inserted under Captain's Notes; when the file has
neither a Captain's Notes nor a Patterns section nothing is written. -/
def addCritiqueToSkillbook (skillbook : Option String) (feature critique : String)
    (suggestions : List String) (date now : String) : String :=
  let content0 : String :=
    match skillbook with
    | some c => c
    | none => captainSkillbookTemplate now
  let cs0 := content0.data
  let cs1 : List Char :=
    if "## Captain's Notes".data <:+: cs0 then cs0
    else
      match firstIdx "## Patterns".data cs0 with
      | none => cs0
      | some p => insertAt cs0 captainSectionText.data p
  match firstIdx "## Captain's Notes".data cs1 with
  | none => ⟨cs1⟩
  | some cap =>
    let ip : Nat :=
      match idxFrom "\n\n".data cs1 (cap + 20) with
      | some j => j + 2
      | none => 1
    let cs2 := insertAt cs1 (critiqueEntry date feature critique suggestions).data ip
    ⟨replaceStamp now cs2⟩

/-! ## `handleInterrupt` -/

/-- What one invocation of the SIGINT/SIGTERM handler does: whether it aborts
the in-flight SDK call, the run state it persists (if any), and the exit code
it terminates the process with (if it terminates it). -/
structure InterruptResult where
  aborted : Bool
  persisted : Option AutopilotState
  exitCode : Option Nat
deriving DecidableEq

/-- Mark the first session whose status is `running` as `error` with an end
timestamp (`sessions.find(s => s.status === "running")` then mutation). -/
def markFirstRunning : List SessionLog → String → List SessionLog
  | [], _ => []
  | s :: ss, now =>
    if s.status = .running then { s with status := .error, endTime := some now } :: ss
    else s :: markFirstRunning ss now

/-- `handleInterrupt`: no-op on re-entry; otherwise abort the current SDK
call when one is in flight, set the run status to `interrupted`, mark the
running session as `error`, persist the state, and exit with code 130. -/
def handleInterrupt (isInterrupted hasAbortController : Bool)
    (st : Option AutopilotState) (now : String) : InterruptResult :=
  if isInterrupted then ⟨false, none, none⟩
  else
    match st with
    | none => ⟨hasAbortController, none, some 130⟩
    | some state =>
      let state1 := { state with
        status := RunStatus.interrupted
        sessions := markFirstRunning state.sessions now }
      ⟨hasAbortController, some state1, some 130⟩

/-! ## The iteration step of the autopilot loop -/

/-- The run's fixed configuration, including the task description captured
once at startup (`sprintTask.task`, reused in every memory entry). -/
structure LoopConfig where
  maxIterations : Nat
  stallThreshold : Nat
  maxRetries : Nat
  dryRun : Bool
  sprintTask : String

/-- Everything the external world contributes to one iteration: git
observations before and after the session, the session result, the sprint
file content after the agent ran, the test environment, and the review
verdict for each feature description. -/
structure IterationObs where
  startCommits : Nat
  endCommits : Nat
  changedFiles : Nat
  sprintFileModified : Bool
  changedPaths : List String
  recentCommits : List String
  sprintAfterSession : Option Sprint
  exitCode : Nat
  timedOut : Bool
  retriesUsed : Nat
  sessionId : Option String
  costUsd : Option ℚ
  inputTokens : Option Nat
  outputTokens : Option Nat
  durationSeconds : Nat
  now : String
  date : String
  testEnv : TestEnv
  reviewOf : String → ReviewOutcome

/-- The mutable state threaded through the loop: the local `iteration` and
`stallCount` variables, the in-memory run state, the sprint memory, the
on-disk sprint file, the skillbook, and the last `AutopilotState` written to
disk by `saveState`. -/
structure LoopState where
  iteration : Nat
  stallCount : Nat
  state : AutopilotState
  memory : SprintMemory
  sprint : Option Sprint
  skillbook : Option String
  persistedState : Option AutopilotState

/-- How one iteration ends. -/
inductive StepOutcome
  | stalledStop
  | completedStop
  | keepGoing
deriving DecidableEq

/-- The result of one iteration, with the test command the gate executed and
the features for which a review sub-agent was invoked. -/
structure StepResult where
  ls : LoopState
  outcome : StepOutcome
  testCommandRun : Option String
  reviewsCalled : List String

/-- `endCommits - startCommits`. -/
def commitsMadeOf (obs : IterationObs) : Int :=
  (obs.endCommits : Int) - (obs.startCommits : Int)

/-- The `result` recorded in this iteration's memory entry. -/
def memoryResultOf (obs : IterationObs) : MemResult :=
  if 0 < commitsMadeOf obs then .success
  else if 0 < obs.changedFiles then .partialProgress
  else .failure

/-- The `approach` recorded in this iteration's memory entry. -/
def approachOf (iteration : Nat) (obs : IterationObs) : String :=
  if 0 < obs.recentCommits.length then
    String.intercalate "; " (obs.recentCommits.take 3)
  else
    "Session " ++ toString iteration ++ " - " ++
      (if memoryResultOf obs = .failure then "no commits made"
       else "files modified but not committed")

/-- The `learnings` extracted from commit messages for the memory entry. -/
def learningsOf (obs : IterationObs) : List String :=
  obs.recentCommits.filterMap fun msg =>
    if strIncludes (jsToLower msg) "test" && !strIncludes (jsToLower msg) "fix"
    then some ("Tests: " ++ msg) else none

/-- The `failures` extracted from commit messages for the memory entry, plus
the no-progress failure line. -/
def failuresOf (task : String) (iteration : Nat) (obs : IterationObs) : List String :=
  (obs.recentCommits.filterMap fun msg =>
    if strIncludes (jsToLower msg) "fix" || strIncludes (jsToLower msg) "revert"
    then some ("Had to fix/revert: " ++ msg) else none) ++
  (if memoryResultOf obs = .failure then
    ["Session " ++ toString iteration ++ " made no progress on \"" ++ task ++
      "\" - may need different approach"]
  else [])

/-- The memory entry appended after the session. -/
def buildMemoryEntry (task : String) (iteration : Nat) (obs : IterationObs) :
    SprintMemoryEntry :=
  { iteration := iteration
    timestamp := obs.now
    feature := task
    approach := approachOf iteration obs
    result := memoryResultOf obs
    commits := commitsMadeOf obs
    learnings := learningsOf obs
    failures := failuresOf task iteration obs
    critique := none }

/-- The completed `SessionLog` for this iteration. -/
def buildSessionLog (iteration : Nat) (obs : IterationObs) : SessionLog :=
  { sessionId := "session-" ++ obs.now
    iteration := iteration
    startTime := obs.now
    endTime := some obs.now
    durationSeconds := some obs.durationSeconds
    startCommits := obs.startCommits
    endCommits := some obs.endCommits
    commitsMade := some (commitsMadeOf obs)
    filesChanged := some obs.changedFiles
    sprintUpdated := some obs.sprintFileModified
    exitCode := some obs.exitCode
    timedOut := some obs.timedOut
    retriesUsed := some obs.retriesUsed
    costUsd := obs.costUsd
    inputTokens := obs.inputTokens
    outputTokens := obs.outputTokens
    status :=
      if obs.timedOut then .timeout
      else if obs.exitCode ≠ 0 then .error
      else .completed }

/-- Push this iteration's session log and accumulate the state counters
(`iterations`, `totalCommits`, cost, duration, resume session id). -/
def updateStateAfterSession (st : AutopilotState) (iteration : Nat)
    (obs : IterationObs) : AutopilotState :=
  { st with
    sessions := st.sessions ++ [buildSessionLog iteration obs]
    iterations := iteration
    currentSessionId :=
      match obs.sessionId with
      | some sid => some sid
      | none => st.currentSessionId
    totalCostUsd :=
      match obs.costUsd with
      | some c => some (st.totalCostUsd.getD 0 + c)
      | none => st.totalCostUsd
    totalCommits := st.totalCommits + commitsMadeOf obs
    totalDurationSeconds := some (st.totalDurationSeconds.getD 0 + obs.durationSeconds) }

/-- `sprintData.features.find(f => f.description === d)` followed by setting
`passes = false` on the found feature: only the first match is changed. -/
def setPassesFalse : List SprintFeature → String → List SprintFeature
  | [], _ => []
  | f :: fs, d =>
    if f.description = d then { f with passes := false } :: fs
    else f :: setPassesFalse fs d

/-- Re-read the sprint file and mark the feature with the given description
as not passing (a no-op when the file is missing). -/
def revertFeature (sp : Option Sprint) (desc : String) : Option Sprint :=
  match sp with
  | none => none
  | some s => some { s with features := setPassesFalse s.features desc }

/-- `getNewlyCompletedFeatures`: the features that now pass but were in the
incomplete list before the session. -/
def getNewlyCompletedFeatures (beforeFeatures : List String) (currentSprint : Option Sprint) :
    List SprintFeature :=
  match currentSprint with
  | none => []
  | some sp => sp.features.filter fun f => f.passes && decide (f.description ∈ beforeFeatures)

/-- Apply an update to the most recent memory entry (a no-op on an empty
memory, which cannot occur inside an iteration). -/
def modifyLast (mem : SprintMemory) (g : SprintMemoryEntry → SprintMemoryEntry) :
    SprintMemory :=
  match mem.entries.getLast? with
  | none => mem
  | some last => { mem with entries := mem.entries.dropLast ++ [g last] }

/-- The per-feature memory update of the failed test gate: critique set to
the failing command, result downgraded to failure, and the truncated test
output pushed onto `failures`. -/
def applyTestFailToLast (mem : SprintMemory) (command output : String) : SprintMemory :=
  modifyLast mem fun last =>
    { last with
      critique := some ("Tests failed: " ++ command)
      result := .failure
      failures := last.failures ++ ["TEST GATE FAILED: " ++ strTake output 200] }

/-- The memory update of a rejected review: critique attached, result
downgraded to partial, critique and suggestions pushed onto `failures`. -/
def applyReviewFailToLast (mem : SprintMemory) (r : ReviewResult) : SprintMemory :=
  modifyLast mem fun last =>
    { last with
      critique := some r.critique
      result := .partialProgress
      failures := last.failures ++
        (["Review failed: " ++ r.critique] ++
          (if 0 < r.suggestions.length then
            ["Suggestions: " ++ String.intercalate "; " r.suggestions]
          else [])) }

/-- What the quality gate leaves behind. -/
structure GateResult where
  sprint : Option Sprint
  memory : SprintMemory
  skillbook : Option String
  testCommandRun : Option String
  reviewsCalled : List String

/-- One step of the review loop over newly completed features: invoke the
review sub-agent and, on rejection, append the critique to the skillbook,
revert the feature, and downgrade the memory entry. -/
def reviewStep (reviewOf : String → ReviewOutcome) (date now : String)
    (acc : Option Sprint × SprintMemory × Option String × List String)
    (f : SprintFeature) : Option Sprint × SprintMemory × Option String × List String :=
  let r := reviewSubAgentResult (reviewOf f.description)
  let called := acc.2.2.2 ++ [f.description]
  if r.approved then (acc.1, acc.2.1, acc.2.2.1, called)
  else
    (revertFeature acc.1 f.description,
     applyReviewFailToLast acc.2.1 r,
     some (addCritiqueToSkillbook acc.2.2.1 f.description r.critique r.suggestions date now),
     called)

/-- `sprintAfter?.context?.test_command`. -/
def sprintTestCommand : Option Sprint → Option String
  | some sp =>
    match sp.context with
    | some c => c.test_command
    | none => none
  | none => none

/-- The quality gate pipeline for the newly completed features: the binary
test gate, then — only if it passed — one review sub-call per feature; on a
failed test gate every newly completed feature is reverted and the memory
entry is downgraded, with no review sub-call. -/
def qualityGate (obs : IterationObs) (newly : List SprintFeature)
    (sprintAfterRead disk : Option Sprint) (mem : SprintMemory)
    (sb : Option String) : GateResult :=
  let tg := runTestGate obs.testEnv (sprintTestCommand sprintAfterRead)
  if tg.1.passed then
    let folded := newly.foldl (reviewStep obs.reviewOf obs.date obs.now) (disk, mem, sb, [])
    ⟨folded.1, folded.2.1, folded.2.2.1, tg.2, folded.2.2.2⟩
  else
    let folded := newly.foldl
      (fun acc f =>
        (revertFeature acc.1 f.description, applyTestFailToLast acc.2 tg.1.command tg.1.output))
      (disk, mem)
    ⟨folded.1, folded.2, sb, tg.2, []⟩

/-- `getCurrentSprintTask` finds a task: an in-progress sprint with an
incomplete feature. -/
def hasCurrentTask : Option Sprint → Bool
  | none => false
  | some sp => decide (sp.status = "in_progress") && sp.features.any (fun f => !f.passes)

/-- Whether `getCurrentSprintFile` finds a sprint file at the start of the
iteration (an in-progress sprint on disk). -/
def pathOkOf (ls : LoopState) : Bool :=
  match ls.sprint with
  | some sp => decide (sp.status = "in_progress")
  | none => false

/-- The descriptions of the features still incomplete before the session. -/
def incompleteBeforeOf (ls : LoopState) : List String :=
  if pathOkOf ls then
    match ls.sprint with
    | some sp => (sp.features.filter (fun f => !f.passes)).map (·.description)
    | none => []
  else []

/-- The sprint re-read through the tracked file path after the session. -/
def sprintAfterReadOf (ls : LoopState) (obs : IterationObs) : Option Sprint :=
  if pathOkOf ls then obs.sprintAfterSession else none

/-- The features that newly completed during this iteration. -/
def newlyOf (ls : LoopState) (obs : IterationObs) : List SprintFeature :=
  getNewlyCompletedFeatures (incompleteBeforeOf ls) (sprintAfterReadOf ls obs)

/-- The sprint memory with this iteration's entry appended. -/
def memory1Of (cfg : LoopConfig) (ls : LoopState) (obs : IterationObs) : SprintMemory :=
  { ls.memory with
    entries := ls.memory.entries ++ [buildMemoryEntry cfg.sprintTask (ls.iteration + 1) obs] }

/-- The skillbook after `extractLearnings`. -/
def skillbook1Of (ls : LoopState) (obs : IterationObs) : Option String :=
  some (extractLearnings ls.skillbook obs.recentCommits obs.now)

/-- The quality-gate phase of the iteration: run only when at least one
feature newly completed and the run is not a dry run. -/
def gateOf (cfg : LoopConfig) (ls : LoopState) (obs : IterationObs) : GateResult :=
  if 0 < (newlyOf ls obs).length ∧ ¬cfg.dryRun then
    qualityGate obs (newlyOf ls obs) (sprintAfterReadOf ls obs) obs.sprintAfterSession
      (memory1Of cfg ls obs) (skillbook1Of ls obs)
  else ⟨obs.sprintAfterSession, memory1Of cfg ls obs, skillbook1Of ls obs, none, []⟩

/-- The stall counter after this iteration's progress classification. -/
def stallNewOf (stallCount : Nat) (obs : IterationObs) : Nat :=
  if 0 < commitsMadeOf obs then 0
  else if 0 < obs.changedFiles then stallCount
  else stallCount + 1

/-- Whether the no-progress branch fires and the incremented counter reaches
the stall threshold. -/
def stalledNowOf (cfg : LoopConfig) (stallCount : Nat) (obs : IterationObs) : Bool :=
  decide (commitsMadeOf obs ≤ 0) && decide (obs.changedFiles = 0) &&
    decide (cfg.stallThreshold ≤ stallNewOf stallCount obs)

/-- One iteration of the autopilot while-loop (lines 1531–1888 of
`autopilot.ts`): session, session log and counters, learnings extraction,
memory entry, quality gates, `saveState`, stall classification, and the
completion check. -/
def iterationStep (cfg : LoopConfig) (ls : LoopState) (obs : IterationObs) : StepResult :=
  let iteration := ls.iteration + 1
  let state1 := updateStateAfterSession ls.state iteration obs
  let gate : GateResult := gateOf cfg ls obs
  let stallNew : Nat := stallNewOf ls.stallCount obs
  if stalledNowOf cfg ls.stallCount obs then
    let state2 := { state1 with status := RunStatus.stalled }
    { ls :=
        { iteration := iteration, stallCount := stallNew, state := state2
          memory := gate.memory, sprint := gate.sprint, skillbook := gate.skillbook
          persistedState := some state2 }
      outcome := .stalledStop
      testCommandRun := gate.testCommandRun
      reviewsCalled := gate.reviewsCalled }
  else
    let state2 := { state1 with stallCount := stallNew }
    if !hasCurrentTask gate.sprint then
      let state3 := { state2 with status := RunStatus.completed }
      { ls :=
          { iteration := iteration, stallCount := stallNew, state := state3
            memory := gate.memory, sprint := gate.sprint, skillbook := gate.skillbook
            persistedState := some state3 }
        outcome := .completedStop
        testCommandRun := gate.testCommandRun
        reviewsCalled := gate.reviewsCalled }
    else
      { ls :=
          { iteration := iteration, stallCount := stallNew, state := state2
            memory := gate.memory, sprint := gate.sprint, skillbook := gate.skillbook
            persistedState := some state1 }
        outcome := .keepGoing
        testCommandRun := gate.testCommandRun
        reviewsCalled := gate.reviewsCalled }

/-- The autopilot while-loop: run iterations while the budget lasts and the
step wants to keep going, consuming one observation per iteration. -/
def runLoop (cfg : LoopConfig) : LoopState → List IterationObs → LoopState
  | ls, [] => ls
  | ls, obs :: rest =>
    if ls.iteration < cfg.maxIterations then
      let r := iterationStep cfg ls obs
      match r.outcome with
      | .keepGoing => runLoop cfg r.ls rest
      | _ => r.ls
    else ls

/-! ## Sample inputs used by witnesses -/

/-- A test environment with nothing to detect and successful execution. -/
def sampleEnv : TestEnv := ⟨.absent, false, false, false, fun _ => (true, "")⟩

/-- A neutral observation: no commits, no file changes, no sprint on disk. -/
def sampleObs : IterationObs :=
  { startCommits := 0
    endCommits := 0
    changedFiles := 0
    sprintFileModified := false
    changedPaths := []
    recentCommits := []
    sprintAfterSession := none
    exitCode := 0
    timedOut := false
    retriesUsed := 0
    sessionId := none
    costUsd := none
    inputTokens := none
    outputTokens := none
    durationSeconds := 0
    now := "2026-01-01T00:00:00.000Z"
    date := "2026-01-01"
    testEnv := sampleEnv
    reviewOf := fun _ => .error }

def sampleState : AutopilotState := initialAutopilotState "demo" "2026-01-01T00:00:00.000Z"

def sampleMemory : SprintMemory :=
  freshSprintMemory "demo" "docs/sprints/2026-01-01-demo.json" "2026-01-01T00:00:00.000Z"

def sampleLS : LoopState :=
  { iteration := 0
    stallCount := 0
    state := sampleState
    memory := sampleMemory
    sprint := none
    skillbook := none
    persistedState := none }

def sampleCfg : LoopConfig :=
  { maxIterations := 20, stallThreshold := 3, maxRetries := 2, dryRun := false
    sprintTask := "Implement login form" }

/-! ## Structural lemmas about the iteration step -/

theorem iterationStep_ls_stallCount (cfg : LoopConfig) (ls : LoopState) (obs : IterationObs) :
    (iterationStep cfg ls obs).ls.stallCount = stallNewOf ls.stallCount obs := by
  unfold iterationStep
  dsimp only
  split
  · rfl
  · split <;> rfl

theorem iterationStep_state_sessions (cfg : LoopConfig) (ls : LoopState) (obs : IterationObs) :
    (iterationStep cfg ls obs).ls.state.sessions =
      ls.state.sessions ++ [buildSessionLog (ls.iteration + 1) obs] := by
  unfold iterationStep
  dsimp only
  split
  · rfl
  · split <;> rfl

theorem iterationStep_state_totalCommits (cfg : LoopConfig) (ls : LoopState)
    (obs : IterationObs) :
    (iterationStep cfg ls obs).ls.state.totalCommits =
      ls.state.totalCommits + commitsMadeOf obs := by
  unfold iterationStep
  dsimp only
  split
  · rfl
  · split <;> rfl

theorem iterationStep_stalled_case (cfg : LoopConfig) (ls : LoopState) (obs : IterationObs)
    (h1 : commitsMadeOf obs ≤ 0) (h2 : obs.changedFiles = 0)
    (h3 : cfg.stallThreshold ≤ ls.stallCount + 1) :
    (iterationStep cfg ls obs).outcome = .stalledStop ∧
    (iterationStep cfg ls obs).ls.state.status = RunStatus.stalled ∧
    (iterationStep cfg ls obs).ls.persistedState = some (iterationStep cfg ls obs).ls.state := by
  have hlt : ¬ 0 < commitsMadeOf obs := by omega
  have hsn : stallNewOf ls.stallCount obs = ls.stallCount + 1 := by
    simp [stallNewOf, hlt, h2]
  have hst : stalledNowOf cfg ls.stallCount obs = true := by
    simp [stalledNowOf, h1, h2, hsn, h3]
  unfold iterationStep
  simp only [hst]
  exact ⟨rfl, rfl, rfl⟩

theorem runLoop_cons_stop (cfg : LoopConfig) (ls : LoopState) (obs : IterationObs)
    (rest : List IterationObs) (hb : ls.iteration < cfg.maxIterations)
    (ho : (iterationStep cfg ls obs).outcome ≠ .keepGoing) :
    runLoop cfg ls (obs :: rest) = (iterationStep cfg ls obs).ls := by
  rw [runLoop, if_pos hb]
  cases hx : (iterationStep cfg ls obs).outcome with
  | keepGoing => exact absurd hx ho
  | stalledStop => simp only [hx]
  | completedStop => simp only [hx]

theorem runLoop_cons_go (cfg : LoopConfig) (ls : LoopState) (obs : IterationObs)
    (rest : List IterationObs) (hb : ls.iteration < cfg.maxIterations)
    (ho : (iterationStep cfg ls obs).outcome = .keepGoing) :
    runLoop cfg ls (obs :: rest) = runLoop cfg (iterationStep cfg ls obs).ls rest := by
  rw [runLoop, if_pos hb]
  simp only [ho]

/-! ## Claim C1 -/

/-- C1: In every iteration of the autopilot loop the stall counter is updated
by the progress classification exactly as follows: at least one commit
(end commit count minus start commit count > 0) resets it to 0; no commits
but at least one changed file leaves it unchanged; no commits and no changed
files increments it by exactly 1. -/
theorem stall_counter_progress_classification (cfg : LoopConfig) (ls : LoopState)
    (obs : IterationObs) :
    (0 < (obs.endCommits : Int) - (obs.startCommits : Int) →
      (iterationStep cfg ls obs).ls.stallCount = 0) ∧
    ((obs.endCommits : Int) - (obs.startCommits : Int) ≤ 0 → 0 < obs.changedFiles →
      (iterationStep cfg ls obs).ls.stallCount = ls.stallCount) ∧
    ((obs.endCommits : Int) - (obs.startCommits : Int) ≤ 0 → obs.changedFiles = 0 →
      (iterationStep cfg ls obs).ls.stallCount = ls.stallCount + 1) := by
  refine ⟨fun h1 => ?_, fun h1 h2 => ?_, fun h1 h2 => ?_⟩ <;>
    rw [iterationStep_ls_stallCount]
  · simp [stallNewOf, commitsMadeOf, h1]
  · have hlt : ¬ 0 < commitsMadeOf obs := by simp only [commitsMadeOf]; omega
    simp [stallNewOf, hlt, h2]
  · have hlt : ¬ 0 < commitsMadeOf obs := by simp only [commitsMadeOf]; omega
    simp [stallNewOf, hlt, h2]

/-- Witness for C1: the three classifications at concrete inputs. -/
theorem stall_counter_progress_classification_witness :
    (iterationStep sampleCfg { sampleLS with stallCount := 2 }
      { sampleObs with endCommits := 2 }).ls.stallCount = 0 ∧
    (iterationStep sampleCfg { sampleLS with stallCount := 1 }
      { sampleObs with changedFiles := 4 }).ls.stallCount = 1 ∧
    (iterationStep sampleCfg sampleLS sampleObs).ls.stallCount = 0 + 1 := by
  refine ⟨(stall_counter_progress_classification _ _ _).1 (by decide),
    (stall_counter_progress_classification _ _ _).2.1 (by decide) (by decide),
    (stall_counter_progress_classification _ _ _).2.2 (by decide) (by decide)⟩

/-! ## Claim C2 -/

/-- C2: When the incremented stall counter reaches the configured threshold
in an iteration with no commits and no changed files, the loop terminates in
that same iteration — regardless of how many iterations remain in the budget
— with the run status set to `stalled` and that state persisted. -/
theorem stall_threshold_terminates_run (cfg : LoopConfig) (ls : LoopState)
    (obs : IterationObs) (rest : List IterationObs)
    (hbudget : ls.iteration < cfg.maxIterations)
    (hthresh : cfg.stallThreshold ≤ ls.stallCount + 1)
    (hcommits : obs.endCommits = obs.startCommits)
    (hfiles : obs.changedFiles = 0) :
    runLoop cfg ls (obs :: rest) = (iterationStep cfg ls obs).ls ∧
    (runLoop cfg ls (obs :: rest)).state.status = RunStatus.stalled ∧
    (runLoop cfg ls (obs :: rest)).persistedState =
      some (runLoop cfg ls (obs :: rest)).state := by
  have h1 : commitsMadeOf obs ≤ 0 := by simp [commitsMadeOf, hcommits]
  obtain ⟨ho, hs, hp⟩ := iterationStep_stalled_case cfg ls obs h1 hfiles hthresh
  have hrun : runLoop cfg ls (obs :: rest) = (iterationStep cfg ls obs).ls :=
    runLoop_cons_stop cfg ls obs rest hbudget (by rw [ho]; intro hc; cases hc)
  exact ⟨hrun, hrun ▸ hs, hrun ▸ hp⟩

/-- Witness for C2: threshold 3, two no-progress iterations already
accumulated, one more iteration with 0 commits and 0 changed files, and a
full budget of further observations remaining. -/
theorem stall_threshold_terminates_run_witness :
    runLoop sampleCfg { sampleLS with stallCount := 2 }
        (sampleObs :: [sampleObs, sampleObs]) =
      (iterationStep sampleCfg { sampleLS with stallCount := 2 } sampleObs).ls ∧
    (runLoop sampleCfg { sampleLS with stallCount := 2 }
        (sampleObs :: [sampleObs, sampleObs])).state.status = RunStatus.stalled := by
  have h := stall_threshold_terminates_run sampleCfg { sampleLS with stallCount := 2 }
    sampleObs [sampleObs, sampleObs] (by decide) (by decide) (by decide) (by decide)
  exact ⟨h.1, h.2.1⟩

/-! ## Claim C5 -/

/-- C5: When a review invocation errors internally, is aborted by the review
timeout, or yields output from which no structured verdict can be parsed
(no ```json block, or a block whose JSON fails to parse), the returned
`ReviewResult` has `approved = true` (fail-open); consequently the review
loop over newly-passed items leaves the sprint file, the memory and the
skillbook untouched when every review ends in such an infrastructure
failure — it never reverts a `passes` flag or downgrades a memory entry. -/
theorem review_infrastructure_failure_fail_open (o : ReviewOutcome)
    (h : o = .error ∨ o = .noJsonBlock ∨ o = .jsonParseError) :
    (reviewSubAgentResult o).approved = true ∧
    ∀ (reviewOf : String → ReviewOutcome) (date now : String)
      (newly : List SprintFeature),
      (∀ f ∈ newly, reviewOf f.description = .error ∨
        reviewOf f.description = .noJsonBlock ∨
        reviewOf f.description = .jsonParseError) →
      ∀ (sp : Option Sprint) (mem : SprintMemory) (sb : Option String)
        (called : List String),
        (newly.foldl (reviewStep reviewOf date now) (sp, mem, sb, called)).1 = sp ∧
        (newly.foldl (reviewStep reviewOf date now) (sp, mem, sb, called)).2.1 = mem ∧
        (newly.foldl (reviewStep reviewOf date now) (sp, mem, sb, called)).2.2.1 = sb := by
  have happr : ∀ o' : ReviewOutcome,
      (o' = .error ∨ o' = .noJsonBlock ∨ o' = .jsonParseError) →
      (reviewSubAgentResult o').approved = true := by
    rintro o' (rfl | rfl | rfl) <;> rfl
  refine ⟨happr o h, ?_⟩
  intro reviewOf date now newly
  induction newly with
  | nil => intro _ sp mem sb called; exact ⟨rfl, rfl, rfl⟩
  | cons f fs ih =>
    intro hall sp mem sb called
    have hf := happr _ (hall f (List.mem_cons_self f fs))
    have hstep : reviewStep reviewOf date now (sp, mem, sb, called) f =
        (sp, mem, sb, called ++ [f.description]) := by
      simp [reviewStep, hf]
    rw [List.foldl_cons, hstep]
    exact ih (fun g hg => hall g (List.mem_cons_of_mem f hg)) sp mem sb _

/-- Witness for C5: a concrete erroring review and a concrete timeout-aborted
review over one newly-passed feature leave the state unchanged. -/
theorem review_infrastructure_failure_fail_open_witness :
    (reviewSubAgentResult .error).approved = true ∧
    ([(⟨"f1", "add login", true⟩ : SprintFeature)].foldl
      (reviewStep (fun _ => .noJsonBlock) "2026-01-01" "t1")
      (none, sampleMemory, none, [])).2.1 = sampleMemory := by
  have h := review_infrastructure_failure_fail_open .error (Or.inl rfl)
  refine ⟨h.1, ?_⟩
  exact (h.2 (fun _ => .noJsonBlock) "2026-01-01" "t1"
    [⟨"f1", "add login", true⟩] (fun f _ => Or.inr (Or.inl rfl))
    none sampleMemory none []).2.1

/-! ## Claim C7 -/

/-- C7 counterexample: when the stored memory file is malformed, the claim
says it is archived via a timestamped rename before a fresh memory is
created; on the code, `loadSprintMemory` returns a fresh memory with
`archived = false` — the corrupted file is not renamed and will be
overwritten by the next save. -/
theorem malformed_memory_not_archived_counterexample :
    (loadSprintMemory .malformed "auth" "docs/sprints/2026-01-01-auth.json"
      "2026-01-02T00:00:00.000Z").archived = false ∧
    loadSprintMemory .malformed "auth" "docs/sprints/2026-01-01-auth.json"
        "2026-01-02T00:00:00.000Z" =
      ⟨freshSprintMemory "auth" "docs/sprints/2026-01-01-auth.json"
        "2026-01-02T00:00:00.000Z", false⟩ :=
  ⟨rfl, rfl⟩

/-- C7 amended: a stored memory belonging to a different initiative or sprint
file is archived via a timestamped rename before the fresh empty memory is
created; a malformed (unparseable) stored memory is treated as absent — a
fresh memory is created but the old file is not archived (it is overwritten
by the first subsequent save). -/
theorem memory_archived_on_sprint_switch (m : SprintMemory)
    (initiative sprintFile now : String)
    (hdiff : ¬(m.initiative = initiative ∧ m.sprintFile = sprintFile)) :
    loadSprintMemory (.valid m) initiative sprintFile now =
      ⟨freshSprintMemory initiative sprintFile now, true⟩ ∧
    loadSprintMemory .malformed initiative sprintFile now =
      ⟨freshSprintMemory initiative sprintFile now, false⟩ ∧
    loadSprintMemory .absent initiative sprintFile now =
      ⟨freshSprintMemory initiative sprintFile now, false⟩ := by
  refine ⟨?_, rfl, rfl⟩
  simp [loadSprintMemory, hdiff]

/-- Witness for C7's amended theorem: switching from initiative `auth` to
`payments` archives the old memory. -/
theorem memory_archived_on_sprint_switch_witness :
    loadSprintMemory
        (.valid (freshSprintMemory "auth" "docs/sprints/a.json" "t0"))
        "payments" "docs/sprints/b.json" "t1" =
      ⟨freshSprintMemory "payments" "docs/sprints/b.json" "t1", true⟩ :=
  (memory_archived_on_sprint_switch _ _ _ _ (by simp [freshSprintMemory])).1

/-! ## Claim C8 -/

/-- The sum of `commitsMade` over the recorded sessions. -/
def sessionsCommitSum (sessions : List SessionLog) : Int :=
  (sessions.map (fun s => s.commitsMade.getD 0)).sum

/-- The invariant of claim C8. -/
def totalCommitsInv (st : AutopilotState) : Prop :=
  st.totalCommits = sessionsCommitSum st.sessions

/-- C8: `RunState.totalCommits` equals the sum over all recorded sessions of
`commitsMade` (each being that session's end commit count minus its start
commit count): it holds of the fresh state, is preserved by every iteration
of the loop, and therefore holds after any run — including one resumed from
a persisted state satisfying it. -/
theorem total_commits_equals_session_sum :
    (∀ initiative started, totalCommitsInv (initialAutopilotState initiative started)) ∧
    (∀ cfg ls obs, totalCommitsInv ls.state →
      totalCommitsInv (iterationStep cfg ls obs).ls.state) ∧
    (∀ cfg (ls : LoopState) obsList, totalCommitsInv ls.state →
      totalCommitsInv (runLoop cfg ls obsList).state) := by
  have hstep : ∀ cfg ls obs, totalCommitsInv ls.state →
      totalCommitsInv (iterationStep cfg ls obs).ls.state := by
    intro cfg ls obs h
    unfold totalCommitsInv at h ⊢
    rw [iterationStep_state_totalCommits, iterationStep_state_sessions, h]
    simp [sessionsCommitSum, buildSessionLog]
  refine ⟨fun initiative started => rfl, hstep, ?_⟩
  intro cfg ls obsList
  induction obsList generalizing ls with
  | nil => intro h; exact h
  | cons obs rest ih =>
    intro h
    rw [runLoop]
    split
    · cases hx : (iterationStep cfg ls obs).outcome
      · simp only [hx]; exact hstep cfg ls obs h
      · simp only [hx]; exact hstep cfg ls obs h
      · simp only [hx]; exact ih _ (hstep cfg ls obs h)
    · exact h

/-- Witness for C8: the invariant holds of the sample state and is preserved
by a concrete iteration. -/
theorem total_commits_equals_session_sum_witness :
    totalCommitsInv (iterationStep sampleCfg sampleLS
      { sampleObs with endCommits := 3 }).ls.state :=
  total_commits_equals_session_sum.2.1 sampleCfg sampleLS
    { sampleObs with endCommits := 3 } rfl

/-! ## Claim C9 -/

theorem markFirstRunning_append (pre : List SessionLog) (s : SessionLog)
    (post : List SessionLog) (now : String)
    (hpre : ∀ t ∈ pre, t.status ≠ .running) (hrun : s.status = .running) :
    markFirstRunning (pre ++ s :: post) now =
      pre ++ { s with status := .error, endTime := some now } :: post := by
  induction pre with
  | nil => simp [markFirstRunning, hrun]
  | cons t ts ih =>
    have ht : t.status ≠ .running := hpre t (List.mem_cons_self t ts)
    have ih' := ih (fun u hu => hpre u (List.mem_cons_of_mem t hu))
    simp only [List.cons_append, markFirstRunning, if_neg ht, List.append_eq]
    rw [ih']

/-- C9: A first interrupt while the loop is running aborts the in-flight
agent-engine call, sets the running `SessionLog`'s status to `error` with an
end timestamp, sets the run status to `interrupted`, persists that state, and
exits with code 130; the persisted state is never left with status
`running`. -/
theorem interrupt_persists_interrupted_state (st : AutopilotState) (now : String)
    (pre post : List SessionLog) (s : SessionLog)
    (hsess : st.sessions = pre ++ s :: post)
    (hpre : ∀ t ∈ pre, t.status ≠ .running)
    (hrun : s.status = .running) :
    (handleInterrupt false true (some st) now).aborted = true ∧
    (handleInterrupt false true (some st) now).exitCode = some 130 ∧
    ∃ st', (handleInterrupt false true (some st) now).persisted = some st' ∧
      st'.status = RunStatus.interrupted ∧
      st'.status ≠ RunStatus.running ∧
      st'.sessions =
        pre ++ { s with status := SessionStatus.error, endTime := some now } :: post := by
    refine ⟨rfl, rfl, _, rfl, rfl, by simp, ?_⟩
    show markFirstRunning st.sessions now = _
    rw [hsess]
    exact markFirstRunning_append pre s post now hpre hrun

/-- Witness for C9: a concrete state with one running session. -/
theorem interrupt_persists_interrupted_state_witness :
    ∃ st', (handleInterrupt false true
        (some { sampleState with sessions := [buildSessionLog 1 sampleObs,
          { buildSessionLog 2 sampleObs with status := SessionStatus.running }] })
        "2026-01-01T01:00:00.000Z").persisted = some st' ∧
      st'.status = RunStatus.interrupted := by
  obtain ⟨-, -, st', hp, hs, -, -⟩ := interrupt_persists_interrupted_state
    { sampleState with sessions := [buildSessionLog 1 sampleObs,
      { buildSessionLog 2 sampleObs with status := SessionStatus.running }] }
    "2026-01-01T01:00:00.000Z"
    [buildSessionLog 1 sampleObs]
    [] { buildSessionLog 2 sampleObs with status := SessionStatus.running }
    rfl (by intro t ht; simp at ht; subst ht; decide) rfl
  exact ⟨st', hp, hs⟩

/-! ## Claim C10 -/

theorem detectTestCommand_none (env : TestEnv) (tc : Option String)
    (htc : jsTruthy tc = false)
    (hpkg : ∀ s, env.pkg = .parsed (some s) → s = "" ∨ s = npmDefaultTestScript)
    (hpy : env.pytestIni = false) (hcargo : env.cargoToml = false)
    (hgo : env.goMod = false) :
    detectTestCommand env tc = none := by
  unfold detectTestCommand
  simp only [htc, Bool.false_eq_true, if_false, hpy, hcargo, hgo]
  cases hp : env.pkg with
  | absent => rfl
  | malformed => rfl
  | parsed ts =>
    cases ts with
    | none => rfl
    | some s =>
      rcases hpkg s hp with h | h <;> simp [h]

theorem reviewFold_called (reviewOf : String → ReviewOutcome) (date now : String)
    (newly : List SprintFeature)
    (acc : Option Sprint × SprintMemory × Option String × List String) :
    (newly.foldl (reviewStep reviewOf date now) acc).2.2.2 =
      acc.2.2.2 ++ newly.map (·.description) := by
  induction newly generalizing acc with
  | nil => simp
  | cons f fs ih =>
    rw [List.foldl_cons, ih]
    have : (reviewStep reviewOf date now acc f).2.2.2 = acc.2.2.2 ++ [f.description] := by
      unfold reviewStep
      dsimp only
      split <;> rfl
    rw [this]
    simp

/-- C10: When the sprint context specifies no test command and none of the
auto-detection probes succeeds (no package.json with a real test script, no
pytest.ini, no Cargo.toml, no go.mod), the test gate returns `passed = true`
with command `none` without executing anything, and the newly-passed items
all proceed directly to the review stage. -/
theorem test_gate_passes_with_no_tests (env : TestEnv) (tc : Option String)
    (htc : jsTruthy tc = false)
    (hpkg : ∀ s, env.pkg = .parsed (some s) → s = "" ∨ s = npmDefaultTestScript)
    (hpy : env.pytestIni = false) (hcargo : env.cargoToml = false)
    (hgo : env.goMod = false) :
    runTestGate env tc =
      (⟨true, "No test command configured or detected - skipping test gate", "none"⟩,
        none) ∧
    ∀ cfg ls obs, cfg.dryRun = false → obs.testEnv = env →
      sprintTestCommand (sprintAfterReadOf ls obs) = tc →
      0 < (newlyOf ls obs).length →
      (gateOf cfg ls obs).testCommandRun = none ∧
      (gateOf cfg ls obs).reviewsCalled = (newlyOf ls obs).map (·.description) := by
  have hdet := detectTestCommand_none env tc htc hpkg hpy hcargo hgo
  have hgate : runTestGate env tc =
      (⟨true, "No test command configured or detected - skipping test gate", "none"⟩,
        none) := by
    unfold runTestGate
    rw [hdet]
  refine ⟨hgate, ?_⟩
  intro cfg ls obs hdry henv htcmd hn
  have hcond : 0 < (newlyOf ls obs).length ∧ ¬cfg.dryRun := ⟨hn, by simp [hdry]⟩
  unfold gateOf
  rw [if_pos hcond]
  unfold qualityGate
  rw [henv, htcmd, hgate]
  simp [reviewFold_called]

/-- Witness for C10: a sprint with one newly-passed feature, no configured
test command and no detectable test setup — the gate passes, runs nothing,
and the feature goes to review. -/
theorem test_gate_passes_with_no_tests_witness :
    (gateOf sampleCfg
      { sampleLS with sprint := some ⟨"demo", "in_progress",
          [⟨"f1", "Implement login form", false⟩], none⟩ }
      { sampleObs with sprintAfterSession := some ⟨"demo", "in_progress",
          [⟨"f1", "Implement login form", true⟩], none⟩ }).reviewsCalled =
      ["Implement login form"] := by
  have h := (test_gate_passes_with_no_tests sampleEnv none rfl
    (by intro s hs; cases hs) rfl rfl rfl).2 sampleCfg
    { sampleLS with sprint := some ⟨"demo", "in_progress",
        [⟨"f1", "Implement login form", false⟩], none⟩ }
    { sampleObs with sprintAfterSession := some ⟨"demo", "in_progress",
        [⟨"f1", "Implement login form", true⟩], none⟩ }
    rfl rfl (by decide) (by decide)
  rw [h.2]
  decide

/-! ## Substring (infix) decomposition helpers -/

theorem infix_append_of_left {α : Type} {p a : List α} (h : p <:+: a) (b : List α) :
    p <:+: a ++ b := h.trans (a.prefix_append b).isInfix

theorem infix_append_cases {α : Type} {p a b : List α} (h : p <:+: a ++ b) :
    p <:+: a ∨ p <:+: b ∨
      ∃ a₁ b₁, p = a₁ ++ b₁ ∧ a₁ ≠ [] ∧ b₁ ≠ [] ∧ a₁ <:+ a ∧ b₁ <+: b := by
  obtain ⟨s, t, hst⟩ := h
  rw [List.append_assoc] at hst
  rcases List.append_eq_append_iff.mp hst with ⟨a', ha, hpt⟩ | ⟨c', _, hb⟩
  · rcases List.append_eq_append_iff.mp hpt with ⟨x, ha', _⟩ | ⟨y, hp, hbb⟩
    · left
      exact ⟨s, x, by rw [ha, ha', List.append_assoc]⟩
    · by_cases ha'e : a' = []
      · subst ha'e
        right; left
        simp only [List.nil_append] at hp
        exact ⟨[], t, by rw [List.nil_append, hbb, hp]⟩
      · by_cases hye : y = []
        · left
          subst hye
          rw [List.append_nil] at hp
          exact ⟨s, [], by rw [List.append_nil, hp, ← ha]⟩
        · right; right
          exact ⟨a', y, hp, ha'e, hye, ⟨s, ha.symm⟩, ⟨t, hbb.symm⟩⟩
  · right; left
    exact ⟨c', t, by rw [hb, List.append_assoc]⟩

theorem head?_append_left {α : Type} (l t : List α) (h : l ≠ []) :
    (l ++ t).head? = l.head? := by
  cases l with
  | nil => exact absurd rfl h
  | cons x xs => rfl

/-- A pattern avoiding the last character of `a` cannot occur in `a ++ rest`
unless it occurs in `a` or in `rest` on its own. -/
theorem not_infix_append_last {p a rest : List Char} {c : Char}
    (hpa : ¬ p <:+: a) (hrest : ¬ p <:+: rest)
    (hlast : a.getLast? = some c) (hc : c ∉ p) :
    ¬ p <:+: a ++ rest := by
  intro h
  rcases infix_append_cases h with h | h | ⟨a₁, b₁, hp, ha₁ne, _, ha₁, _⟩
  · exact hpa h
  · exact hrest h
  · obtain ⟨u, hu⟩ := ha₁
    have h1 : a₁.getLast? = some c := by
      rw [← hlast, ← hu, List.getLast?_append_of_ne_nil _ ha₁ne]
    have h2 : c ∈ a₁ := List.mem_of_mem_getLast? h1
    have h3 : a₁ ⊆ p := hp ▸ (List.prefix_append a₁ b₁).subset
    exact hc (h3 h2)

/-- A pattern avoiding the first character of `rest` cannot occur in
`a ++ rest` unless it occurs in `a` or in `rest` on its own. -/
theorem not_infix_append_head {p a rest : List Char} {c : Char}
    (hpa : ¬ p <:+: a) (hrest : ¬ p <:+: rest)
    (hhead : rest.head? = some c) (hc : c ∉ p) :
    ¬ p <:+: a ++ rest := by
  intro h
  rcases infix_append_cases h with h | h | ⟨a₁, b₁, hp, _, hb₁ne, _, hb₁⟩
  · exact hpa h
  · exact hrest h
  · obtain ⟨t, ht⟩ := hb₁
    have h1 : b₁.head? = some c := by
      rw [← hhead, ← ht, head?_append_left _ _ hb₁ne]
    have h2 : c ∈ b₁ := List.mem_of_mem_head? h1
    have h3 : b₁ ⊆ p := hp ▸ (a₁.suffix_append b₁).subset
    exact hc (h3 h2)

/-! ## Claim C6 -/

theorem mem_firstOccur : ∀ (l : List String) (x : String), x ∈ firstOccur l ↔ x ∈ l
  | [], x => by simp [firstOccur]
  | y :: ys, x => by
    rw [firstOccur]
    have ih := mem_firstOccur (ys.filter (fun z => decide (z ≠ y))) x
    constructor
    · intro hx
      rcases List.mem_cons.mp hx with rfl | hx
      · exact List.mem_cons_self _ _
      · exact List.mem_cons_of_mem _ (List.mem_of_mem_filter (ih.mp hx))
    · intro hx
      rcases List.mem_cons.mp hx with rfl | hx
      · exact List.mem_cons_self _ _
      · by_cases hxy : x = y
        · exact hxy ▸ List.mem_cons_self _ _
        · exact List.mem_cons_of_mem _
            (ih.mpr (List.mem_filter.mpr ⟨hx, by simp [hxy]⟩))
termination_by l => l.length
decreasing_by
  simp only [List.length_cons]
  exact Nat.lt_succ_of_le (List.length_filter_le _ _)

theorem mem_failedFeatures_iff (entries : List SprintMemoryEntry) (desc : String) :
    desc ∈ failedFeatures entries ↔ 0 < failureCount entries desc := by
  unfold failedFeatures failureCount
  rw [mem_firstOccur, List.length_pos]
  constructor
  · intro h hnil
    obtain ⟨e, he, hfe⟩ := List.mem_map.mp h
    have hm := List.mem_filter.mp he
    have : e ∈ entries.filter (fun e => decide (e.result = .failure ∧ e.feature = desc)) := by
      refine List.mem_filter.mpr ⟨hm.1, ?_⟩
      simp only [decide_eq_true_eq] at hm ⊢
      exact ⟨hm.2, hfe⟩
    rw [hnil] at this
    cases this
  · intro h
    have hex : ∃ e ∈ entries, e.result = .failure ∧ e.feature = desc := by
      by_contra hno
      push_neg at hno
      apply h
      rw [List.filter_eq_nil_iff]
      intro e he
      simp only [decide_eq_true_eq]
      intro hco
      exact hno e he hco.1 hco.2
    obtain ⟨e, he, hr, hf⟩ := hex
    exact List.mem_map.mpr ⟨e, List.mem_filter.mpr ⟨he, by simp [hr]⟩, hf⟩

theorem loopWarn_mem_featureWarnings {entries : List SprintMemoryEntry} {desc : String}
    (h3 : 3 ≤ failureCount entries desc) :
    loopWarnStr desc (failureCount entries desc) ∈ featureWarnings entries := by
  unfold featureWarnings
  refine List.mem_flatMap.mpr ⟨desc, (mem_failedFeatures_iff entries desc).mpr (by omega), ?_⟩
  dsimp only
  rw [if_pos h3]
  exact List.mem_singleton.mpr rfl

theorem repeatedAttempts_mem_featureBlocked {entries : List SprintMemoryEntry} {desc : String}
    (h3 : 3 ≤ failureCount entries desc) :
    repeatedAttemptsStr desc ∈ featureBlocked entries := by
  unfold featureBlocked
  refine List.mem_flatMap.mpr ⟨desc, (mem_failedFeatures_iff entries desc).mpr (by omega), ?_⟩
  rw [if_pos h3]
  exact List.mem_singleton.mpr rfl

theorem softWarn_mem_featureWarnings {entries : List SprintMemoryEntry} {desc : String}
    (h2 : failureCount entries desc = 2) :
    softWarnStr desc 2 ∈ featureWarnings entries := by
  unfold featureWarnings
  refine List.mem_flatMap.mpr ⟨desc, (mem_failedFeatures_iff entries desc).mpr (by omega), ?_⟩
  dsimp only
  rw [if_neg (by omega), if_pos (by omega), h2]
  exact List.mem_singleton.mpr rfl

theorem isTrigger_loopWarn (desc : String) (c : Nat) :
    isTriggerWarning (loopWarnStr desc c) = true := by
  have h1 : ("LOOP DETECTED".data) <:+: (loopWarnStr desc c).data := by
    unfold loopWarnStr
    simp only [String.data_append, List.append_assoc]
    exact infix_append_of_left (by decide) _
  simp [isTriggerWarning, strIncludes, h1]

theorem softWarn_not_trigger (desc : String)
    (h1 : ¬ ("LOOP DETECTED".data <:+: desc.data))
    (h2 : ¬ ("OSCILLATION".data <:+: desc.data)) :
    isTriggerWarning (softWarnStr desc 2) = false := by
  have k1 : ¬ ("LOOP DETECTED".data <:+: (softWarnStr desc 2).data) := by
    unfold softWarnStr
    simp only [String.data_append, List.append_assoc]
    refine not_infix_append_last (c := '"') (by decide) ?_ (by decide) (by decide)
    exact not_infix_append_head (c := '"') h1 (by decide) (by decide) (by decide)
  have k2 : ¬ ("OSCILLATION".data <:+: (softWarnStr desc 2).data) := by
    unfold softWarnStr
    simp only [String.data_append, List.append_assoc]
    refine not_infix_append_last (c := '"') (by decide) ?_ (by decide) (by decide)
    exact not_infix_append_head (c := '"') h2 (by decide) (by decide) (by decide)
  simp [isTriggerWarning, strIncludes, k1, k2]

theorem repeatedAttemptsStr_inj {f g : String}
    (h : repeatedAttemptsStr f = repeatedAttemptsStr g) : f = g := by
  unfold repeatedAttemptsStr at h
  have hd := congrArg String.data h
  simp only [String.data_append] at hd
  have h1 := List.append_cancel_right hd
  have h2 := List.append_cancel_left h1
  exact String.ext h2

theorem analyze_eq_of_two_le {memory : SprintMemory} (h2 : 2 ≤ memory.entries.length) :
    analyzeSprintMemoryForLoops memory =
      ⟨(featureWarnings memory.entries ++ oscWarnings memory.entries ++
          approachWarnings memory.entries).any isTriggerWarning,
        featureWarnings memory.entries ++ oscWarnings memory.entries ++
          approachWarnings memory.entries,
        featureBlocked memory.entries ++ oscBlocked memory.entries ++
          approachBlocked memory.entries⟩ := by
  unfold analyzeSprintMemoryForLoops
  rw [if_neg (by omega)]

theorem repeatedAttempts_not_mem_blocked {entries : List SprintMemoryEntry} {desc : String}
    (hcnt : failureCount entries desc = 2)
    (hosc : (fixPatterns entries).length < 3)
    (happr : ∀ a ∈ approachKeys entries, approachCount entries a < 3) :
    repeatedAttemptsStr desc ∉
      featureBlocked entries ++ oscBlocked entries ++ approachBlocked entries := by
  intro hmem
  rcases List.mem_append.mp hmem with hfo | happx
  · rcases List.mem_append.mp hfo with hfeat | hoscm
    · unfold featureBlocked at hfeat
      obtain ⟨f, _, hx⟩ := List.mem_flatMap.mp hfeat
      by_cases h3 : 3 ≤ failureCount entries f
      · rw [if_pos h3] at hx
        have heq := repeatedAttemptsStr_inj (List.mem_singleton.mp hx)
        rw [heq] at hcnt
        omega
      · rw [if_neg h3] at hx
        cases hx
    · unfold oscBlocked at hoscm
      rw [if_neg (by omega)] at hoscm
      cases hoscm
  · unfold approachBlocked at happx
    obtain ⟨a, ha, hx⟩ := List.mem_flatMap.mp happx
    rw [if_neg (by have := happr a ha; omega)] at hx
    cases hx

/-- C6: For a memory with at least 2 entries, the loop analysis counts
failure entries per distinct item description. An item with ≥ 3 failures
produces the blocking `LOOP DETECTED` warning, makes `hasLoop` true, and its
description appears (inside the repeated-attempts string) in
`blockedApproaches`. An item with exactly 2 failures produces only the
lower-severity `⚡ Warning`, which does not carry a `hasLoop` trigger (for
descriptions not themselves containing the trigger tokens), and contributes
nothing to `blockedApproaches` (when the other detectors are silent,
`blockedApproaches` does not contain its repeated-attempts entry). -/
theorem loop_detection_failure_thresholds (memory : SprintMemory) (desc : String)
    (h2 : 2 ≤ memory.entries.length) :
    (3 ≤ failureCount memory.entries desc →
      loopWarnStr desc (failureCount memory.entries desc) ∈
        (analyzeSprintMemoryForLoops memory).warnings ∧
      (analyzeSprintMemoryForLoops memory).hasLoop = true ∧
      repeatedAttemptsStr desc ∈ (analyzeSprintMemoryForLoops memory).blockedApproaches) ∧
    (failureCount memory.entries desc = 2 →
      softWarnStr desc 2 ∈ (analyzeSprintMemoryForLoops memory).warnings ∧
      (¬ ("LOOP DETECTED".data <:+: desc.data) → ¬ ("OSCILLATION".data <:+: desc.data) →
        isTriggerWarning (softWarnStr desc 2) = false) ∧
      ((fixPatterns memory.entries).length < 3 →
        (∀ a ∈ approachKeys memory.entries, approachCount memory.entries a < 3) →
        repeatedAttemptsStr desc ∉ (analyzeSprintMemoryForLoops memory).blockedApproaches)) := by
  rw [analyze_eq_of_two_le h2]
  constructor
  · intro h3
    refine ⟨?_, ?_, ?_⟩
    · exact List.mem_append_left _ (List.mem_append_left _ (loopWarn_mem_featureWarnings h3))
    · exact List.any_eq_true.mpr
        ⟨loopWarnStr desc (failureCount memory.entries desc),
          List.mem_append_left _ (List.mem_append_left _ (loopWarn_mem_featureWarnings h3)),
          isTrigger_loopWarn desc _⟩
    · exact List.mem_append_left _ (List.mem_append_left _ (repeatedAttempts_mem_featureBlocked h3))
  · intro hc2
    refine ⟨?_, ?_, ?_⟩
    · exact List.mem_append_left _ (List.mem_append_left _ (softWarn_mem_featureWarnings hc2))
    · exact fun h1 h2' => softWarn_not_trigger desc h1 h2'
    · exact fun hosc happr => repeatedAttempts_not_mem_blocked hc2 hosc happr

/-- A failure memory entry used by the C6 witness. -/
def mkFailEntry (i : Nat) (feat : String) : SprintMemoryEntry :=
  { iteration := i
    timestamp := "t"
    feature := feat
    approach := "approach " ++ toString i
    result := .failure
    commits := 0
    learnings := []
    failures := []
    critique := none }

/-- A memory with three failures on `feature A` and two on `feature B`. -/
def sampleLoopMemory : SprintMemory :=
  { initiative := "demo"
    sprintFile := "docs/sprints/s.json"
    started := "t0"
    entries := [mkFailEntry 1 "feature A", mkFailEntry 2 "feature A",
      mkFailEntry 3 "feature A", mkFailEntry 4 "feature B", mkFailEntry 5 "feature B"] }

/-- Witness for C6: a concrete memory with three failures on one feature and
two on another. -/
theorem loop_detection_failure_thresholds_witness :
    (analyzeSprintMemoryForLoops sampleLoopMemory).hasLoop = true ∧
    repeatedAttemptsStr "feature A" ∈
      (analyzeSprintMemoryForLoops sampleLoopMemory).blockedApproaches ∧
    softWarnStr "feature B" 2 ∈ (analyzeSprintMemoryForLoops sampleLoopMemory).warnings ∧
    isTriggerWarning (softWarnStr "feature B" 2) = false := by
  have hA := (loop_detection_failure_thresholds sampleLoopMemory "feature A"
    (by decide)).1 (by decide)
  have hB := (loop_detection_failure_thresholds sampleLoopMemory "feature B"
    (by decide)).2 (by decide)
  exact ⟨hA.2.1, hA.2.2, hB.1, hB.2.1 (by decide) (by decide)⟩


/-! ## Claim C3 -/

theorem setPassesFalse_eq_map {fs : List SprintFeature} {d : String}
    (hnd : (fs.map (·.description)).Nodup) :
    setPassesFalse fs d =
      fs.map (fun g => if g.description = d then { g with passes := false } else g) := by
  induction fs with
  | nil => rfl
  | cons f fs ih =>
    simp only [List.map_cons, List.nodup_cons] at hnd
    by_cases hfd : f.description = d
    · rw [setPassesFalse, if_pos hfd, List.map_cons, if_pos hfd]
      congr 1
      have hfs : ∀ g ∈ fs,
          (fun g => if g.description = d then { g with passes := false } else g) g = g := by
        intro g hg
        dsimp only
        rw [if_neg]
        intro hgd
        exact hnd.1 (by rw [hfd, ← hgd]; exact List.mem_map.mpr ⟨g, hg, rfl⟩)
      rw [List.map_congr_left hfs]
      simp
    · rw [setPassesFalse, if_neg hfd, List.map_cons, if_neg hfd, ih hnd.2]

theorem nodup_desc_map_setFalse (fs : List SprintFeature) (d : String)
    (hnd : (fs.map (·.description)).Nodup) :
    ((fs.map fun g => if g.description = d then { g with passes := false } else g).map
        (·.description)).Nodup := by
  rw [List.map_map]
  have h : ∀ g ∈ fs, ((fun (x : SprintFeature) => x.description) ∘
      (fun g => if g.description = d then { g with passes := false } else g)) g =
      g.description := by
    intro g _
    simp only [Function.comp]
    by_cases hg : g.description = d <;> simp [hg]
  rw [List.map_congr_left h]
  exact hnd

theorem foldl_setPassesFalse_eq_map {ds : List String} {fs : List SprintFeature}
    (hnd : (fs.map (·.description)).Nodup) :
    ds.foldl setPassesFalse fs =
      fs.map (fun g => if g.description ∈ ds then { g with passes := false } else g) := by
  induction ds generalizing fs with
  | nil =>
    simp only [List.foldl_nil, List.not_mem_nil, if_false]
    exact (List.map_id fs).symm
  | cons d ds ih =>
    rw [List.foldl_cons, setPassesFalse_eq_map hnd,
      ih (nodup_desc_map_setFalse fs d hnd), List.map_map]
    refine List.map_congr_left ?_
    intro g _
    simp only [Function.comp]
    by_cases hgd : g.description = d <;> by_cases hds : g.description ∈ ds <;>
      simp [hgd, hds, List.mem_cons]

theorem gateTestFold_eq (newly : List SprintFeature) (cmd out : String)
    (sp : Option Sprint) (mem : SprintMemory) :
    newly.foldl (fun acc f =>
        (revertFeature acc.1 f.description, applyTestFailToLast acc.2 cmd out)) (sp, mem) =
      (newly.foldl (fun s f => revertFeature s f.description) sp,
        newly.foldl (fun m (_ : SprintFeature) => applyTestFailToLast m cmd out) mem) := by
  induction newly generalizing sp mem with
  | nil => rfl
  | cons x xs ih =>
    simp only [List.foldl_cons]
    exact ih _ _

theorem foldl_revertFeature_some (newly : List SprintFeature) (s : Sprint) :
    newly.foldl (fun sp f => revertFeature sp f.description) (some s) =
      some { s with
        features := newly.foldl (fun fs f => setPassesFalse fs f.description) s.features } := by
  induction newly generalizing s with
  | nil => rfl
  | cons f fs ih =>
    rw [List.foldl_cons, List.foldl_cons]
    exact ih { s with features := setPassesFalse s.features f.description }

theorem applyTestFail_entries_ne_nil {mem : SprintMemory} (h : mem.entries ≠ [])
    (cmd out : String) : (applyTestFailToLast mem cmd out).entries ≠ [] := by
  unfold applyTestFailToLast modifyLast
  cases hl : mem.entries.getLast? with
  | none => exact h
  | some last => simp

/-- The state of the most recent memory entry after the failed test gate's
update: outcome `failure`, the failing command as critique, the truncated
output in `failures`. -/
def testFailProps (mem : SprintMemory) (cmd out : String) : Prop :=
  ∃ last, mem.entries.getLast? = some last ∧
    last.result = MemResult.failure ∧
    last.critique = some ("Tests failed: " ++ cmd) ∧
    ("TEST GATE FAILED: " ++ strTake out 200) ∈ last.failures

theorem applyTestFail_props {mem : SprintMemory} (h : mem.entries ≠ [])
    (cmd out : String) : testFailProps (applyTestFailToLast mem cmd out) cmd out := by
  unfold applyTestFailToLast modifyLast
  cases hl : mem.entries.getLast? with
  | none => exact absurd (List.getLast?_eq_none_iff.mp hl) h
  | some last =>
    refine ⟨{ last with
      critique := some ("Tests failed: " ++ cmd)
      result := MemResult.failure
      failures := last.failures ++ ["TEST GATE FAILED: " ++ strTake out 200] }, ?_, rfl, rfl, ?_⟩
    · simp
    · exact List.mem_append_right _ (List.mem_singleton.mpr rfl)

theorem foldl_applyTestFail_props (l : List SprintFeature) (mem : SprintMemory)
    (hm : mem.entries ≠ []) (cmd out : String) :
    (l.foldl (fun m (_ : SprintFeature) => applyTestFailToLast m cmd out) mem).entries ≠ [] ∧
    (l ≠ [] →
      testFailProps (l.foldl (fun m (_ : SprintFeature) => applyTestFailToLast m cmd out) mem)
        cmd out) := by
  induction l generalizing mem with
  | nil => exact ⟨hm, fun h => absurd rfl h⟩
  | cons x xs ih =>
    rw [List.foldl_cons]
    have h1 := applyTestFail_entries_ne_nil hm cmd out
    rcases ih (applyTestFailToLast mem cmd out) h1 with ⟨hne, hprops⟩
    refine ⟨hne, fun _ => ?_⟩
    cases hxs : xs with
    | nil =>
      subst hxs
      simpa using applyTestFail_props hm cmd out
    | cons y ys =>
      subst hxs
      exact hprops (by simp)

/-- C3 counterexample inputs: one feature newly passes, the sprint configures
`npm test`, and running it fails with a specific output. -/
def cexEnv : TestEnv :=
  ⟨.absent, false, false, false,
    fun c => if c = "npm test" then (false, "assert failed: 1 != 2") else (true, "")⟩

def cexSprintBefore : Sprint :=
  ⟨"demo", "in_progress", [⟨"f1", "add login", false⟩], some ⟨some "npm test", none⟩⟩

def cexSprintAfter : Sprint :=
  ⟨"demo", "in_progress", [⟨"f1", "add login", true⟩], some ⟨some "npm test", none⟩⟩

def cexLS : LoopState := { sampleLS with sprint := some cexSprintBefore }

def cexObs : IterationObs :=
  { sampleObs with sprintAfterSession := some cexSprintAfter, testEnv := cexEnv }

/-- C3 counterexample: when the test gate fails, the most recent memory
entry's critique is the string `Tests failed: <command>`; the test failure
output (here `assert failed: 1 != 2`), which the claim says is attached as
the critique, does not occur in the critique — it is appended to the entry's
`failures` instead. -/
theorem test_failure_output_not_critique_counterexample :
    (runTestGate cexObs.testEnv
        (sprintTestCommand (sprintAfterReadOf cexLS cexObs))).1.output =
      "assert failed: 1 != 2" ∧
    (runTestGate cexObs.testEnv
        (sprintTestCommand (sprintAfterReadOf cexLS cexObs))).1.passed = false ∧
    (gateOf sampleCfg cexLS cexObs).memory.entries.getLast?.map (·.critique) =
      some (some "Tests failed: npm test") ∧
    ¬ (("assert failed: 1 != 2").data <:+: ("Tests failed: npm test").data) :=
  ⟨rfl, rfl, rfl, by decide⟩

/-- C3 amended: if the test gate fails for an iteration in which features
newly passed (the features of the sprint file carrying pairwise distinct
descriptions), then after the gate every newly-passed feature has
`passes = false` in the sprint file, the most recent memory entry has
outcome `failure` with critique `Tests failed: <command>` and the truncated
test failure output appended to its `failures`, and no review sub-call is
made for any of them (Stage B is skipped entirely). -/
theorem test_gate_failure_reverts_and_skips_review (cfg : LoopConfig) (ls : LoopState)
    (obs : IterationObs)
    (hdry : cfg.dryRun = false)
    (hnew : 0 < (newlyOf ls obs).length)
    (hfail : (runTestGate obs.testEnv
      (sprintTestCommand (sprintAfterReadOf ls obs))).1.passed = false)
    (hnodup : ∀ sp, obs.sprintAfterSession = some sp →
      (sp.features.map (·.description)).Nodup) :
    (∃ sp₀ sp₁, obs.sprintAfterSession = some sp₀ ∧
      (gateOf cfg ls obs).sprint = some sp₁ ∧
      sp₁.features.map (·.description) = sp₀.features.map (·.description) ∧
      ∀ f ∈ newlyOf ls obs, ∀ g ∈ sp₁.features,
        g.description = f.description → g.passes = false) ∧
    testFailProps (gateOf cfg ls obs).memory
      (runTestGate obs.testEnv (sprintTestCommand (sprintAfterReadOf ls obs))).1.command
      (runTestGate obs.testEnv (sprintTestCommand (sprintAfterReadOf ls obs))).1.output ∧
    (gateOf cfg ls obs).reviewsCalled = [] ∧
    (gateOf cfg ls obs).skillbook = skillbook1Of ls obs := by
  obtain ⟨sp₀, hsp₀⟩ : ∃ sp₀, obs.sprintAfterSession = some sp₀ := by
    cases hs : obs.sprintAfterSession with
    | some sp => exact ⟨sp, rfl⟩
    | none =>
      exfalso
      unfold newlyOf sprintAfterReadOf at hnew
      rw [hs] at hnew
      rcases hb : pathOkOf ls with hfalse | htrue
      all_goals rw [hb] at hnew
      all_goals simp [getNewlyCompletedFeatures] at hnew
  have hnd := hnodup sp₀ hsp₀
  set tg := runTestGate obs.testEnv (sprintTestCommand (sprintAfterReadOf ls obs)) with htg
  have hgate : gateOf cfg ls obs =
      ⟨(newlyOf ls obs).foldl (fun s f => revertFeature s f.description) obs.sprintAfterSession,
        (newlyOf ls obs).foldl
          (fun m (_ : SprintFeature) => applyTestFailToLast m tg.1.command tg.1.output)
          (memory1Of cfg ls obs),
        skillbook1Of ls obs, tg.2, []⟩ := by
    unfold gateOf
    rw [if_pos ⟨hnew, by simp [hdry]⟩]
    unfold qualityGate
    rw [← htg]
    simp only [hfail, Bool.false_eq_true, if_false]
    rw [gateTestFold_eq]
  rw [hgate]
  have hfm : ((newlyOf ls obs).map (·.description)).foldl setPassesFalse sp₀.features =
      (newlyOf ls obs).foldl (fun fs f => setPassesFalse fs f.description) sp₀.features :=
    List.foldl_map _ _ _ _
  refine ⟨⟨sp₀,
    { sp₀ with
      features := ((newlyOf ls obs).map (·.description)).foldl setPassesFalse sp₀.features },
    hsp₀, ?_, ?_, ?_⟩, ?_, rfl, rfl⟩
  · show (newlyOf ls obs).foldl (fun s f => revertFeature s f.description)
        obs.sprintAfterSession = _
    rw [hsp₀, foldl_revertFeature_some, ← hfm]
  · show (((newlyOf ls obs).map (·.description)).foldl setPassesFalse sp₀.features).map
        (·.description) = _
    rw [foldl_setPassesFalse_eq_map hnd, List.map_map]
    refine List.map_congr_left ?_
    intro g _
    simp only [Function.comp]
    by_cases h : g.description ∈ (newlyOf ls obs).map (·.description) <;> simp [h]
  · intro f hf g hg hdesc
    rw [show ({ sp₀ with
        features := ((newlyOf ls obs).map (·.description)).foldl setPassesFalse sp₀.features } :
          Sprint).features =
        ((newlyOf ls obs).map (·.description)).foldl setPassesFalse sp₀.features from rfl,
      foldl_setPassesFalse_eq_map hnd] at hg
    obtain ⟨g₀, _, hg₀⟩ := List.mem_map.mp hg
    have hmem : g.description ∈ (newlyOf ls obs).map (·.description) :=
      hdesc ▸ List.mem_map.mpr ⟨f, hf, rfl⟩
    by_cases hin : g₀.description ∈ (newlyOf ls obs).map (·.description)
    · rw [if_pos hin] at hg₀
      rw [← hg₀]
    · rw [if_neg hin] at hg₀
      subst hg₀
      exact absurd hmem hin
  · have hm1 : (memory1Of cfg ls obs).entries ≠ [] := by
      unfold memory1Of
      simp
    have hln : newlyOf ls obs ≠ [] := by
      intro h
      rw [h] at hnew
      simp at hnew
    exact (foldl_applyTestFail_props (newlyOf ls obs) (memory1Of cfg ls obs) hm1
      tg.1.command tg.1.output).2 hln

/-- Witness for C3's amended theorem at the counterexample inputs. -/
theorem test_gate_failure_reverts_and_skips_review_witness :
    (gateOf sampleCfg cexLS cexObs).reviewsCalled = [] ∧
    testFailProps (gateOf sampleCfg cexLS cexObs).memory
      (runTestGate cexObs.testEnv (sprintTestCommand (sprintAfterReadOf cexLS cexObs))).1.command
      (runTestGate cexObs.testEnv
        (sprintTestCommand (sprintAfterReadOf cexLS cexObs))).1.output := by
  have h := test_gate_failure_reverts_and_skips_review sampleCfg cexLS cexObs rfl
    (by decide) (by decide) (by intro sp hsp; cases hsp; decide)
  exact ⟨h.2.2.1, h.2.1⟩

/-! ## Claim C4 -/

theorem drop_append_le {α : Type} {a b : List α} {i : Nat} (h : i ≤ a.length) :
    (a ++ b).drop i = a.drop i ++ b := by
  rw [List.drop_append_eq_append_drop, Nat.sub_eq_zero_of_le h, List.drop_zero]

theorem insertAt_append_left {A rest ins : List Char} {i : Nat} (h : i ≤ A.length) :
    insertAt (A ++ rest) ins i = insertAt A ins i ++ rest := by
  unfold insertAt
  rw [List.take_append_of_le_length h, drop_append_le h]
  simp [List.append_assoc]

theorem firstIdx_nil (pat : List Char) :
    firstIdx pat [] = if pat.isEmpty then some 0 else none := rfl

theorem firstIdx_cons (pat : List Char) (c : Char) (cs : List Char) :
    firstIdx pat (c :: cs) =
      if pat.isPrefixOf (c :: cs) then some 0 else (firstIdx pat cs).map (· + 1) := rfl

theorem firstIdx_append_left {pat xs : List Char} {i : Nat} (ys : List Char)
    (h : firstIdx pat xs = some i) (hle : i + pat.length ≤ xs.length) :
    firstIdx pat (xs ++ ys) = some i := by
  induction xs generalizing i with
  | nil =>
    rw [firstIdx_nil] at h
    by_cases hp : pat.isEmpty
    · rw [if_pos hp] at h
      injection h with h
      subst h
      have hpe : pat = [] := by
        cases pat with
        | nil => rfl
        | cons a l => simp [List.isEmpty] at hp
      subst hpe
      cases ys with
      | nil => rfl
      | cons c cs =>
        rw [List.nil_append, firstIdx_cons, if_pos (by simp [List.isPrefixOf])]
    · rw [if_neg hp] at h
      cases h
  | cons x xs ih =>
    rw [firstIdx_cons] at h
    by_cases hp : pat.isPrefixOf (x :: xs) = true
    · rw [if_pos hp] at h
      injection h with h
      subst h
      rw [List.cons_append, firstIdx_cons,
        if_pos (List.isPrefixOf_iff_prefix.mpr
          ((List.isPrefixOf_iff_prefix.mp hp).trans
            (by rw [← List.cons_append]; exact (x :: xs).prefix_append ys)))]
    · rw [if_neg hp] at h
      cases hfx : firstIdx pat xs with
      | none => rw [hfx] at h; cases h
      | some j =>
        rw [hfx] at h
        simp only [Option.map_some'] at h
        injection h with h
        subst h
        have hle' : j + pat.length ≤ xs.length := by
          simp only [List.length_cons] at hle
          omega
        rw [List.cons_append, firstIdx_cons, if_neg ?_, ih hfx hle']
        · rfl
        · intro hcon
          apply hp
          have hlen : pat.length ≤ (x :: xs).length := by
            simp only [List.length_cons] at hle ⊢
            omega
          have h1 : pat <+: (x :: xs) ++ ys := by
            rw [List.cons_append]
            exact List.isPrefixOf_iff_prefix.mp hcon
          exact List.isPrefixOf_iff_prefix.mpr
            (List.prefix_of_prefix_length_le h1 ((x :: xs).prefix_append ys) hlen)

theorem validMatchLen_isPrefixOf {cs : List Char} {len : Nat}
    (h : validMatchLen cs = some len) : stampPat.isPrefixOf cs = true := by
  unfold validMatchLen at h
  by_cases hp : stampPat.isPrefixOf cs = true
  · exact hp
  · rw [if_neg hp] at h
    cases h

theorem findStampMatch_isPrefix (cs : List Char) (p : Nat × Nat)
    (h : findStampMatch cs = some p) : stampPat.isPrefixOf (cs.drop p.1) = true := by
  induction cs generalizing p with
  | nil => rw [findStampMatch] at h; cases h
  | cons c cs ih =>
    rw [findStampMatch] at h
    cases hv : validMatchLen (c :: cs) with
    | some l =>
      rw [hv] at h
      injection h with h
      subst h
      exact validMatchLen_isPrefixOf hv
    | none =>
      rw [hv] at h
      cases hf : findStampMatch cs with
      | none => rw [hf] at h; cases h
      | some q =>
        rw [hf] at h
        simp only [Option.map_some'] at h
        injection h with h
        subst h
        exact ih q hf

theorem infix_of_prefix_suffix {α : Type} {p s l : List α} (h1 : p <+: s) (h2 : s <:+ l) :
    p <:+: l := by
  obtain ⟨t, ht⟩ := h1
  obtain ⟨u, hu⟩ := h2
  exact ⟨u, t, by rw [← hu, ← ht, List.append_assoc]⟩

theorem prefixAt_length_le {p a b : List Char} {i : Nat} {c : Char}
    (hpre : p.isPrefixOf ((a ++ b).drop i) = true)
    (hna : ¬ p <:+: a) (hlast : a.getLast? = some c) (hc : c ∉ p) :
    a.length ≤ i := by
  by_contra hlt
  push_neg at hlt
  rw [drop_append_le (le_of_lt hlt)] at hpre
  have hp : p <+: a.drop i ++ b := List.isPrefixOf_iff_prefix.mp hpre
  by_cases hlen : p.length ≤ (a.drop i).length
  · have h1 : p <+: a.drop i :=
      List.prefix_of_prefix_length_le hp ((a.drop i).prefix_append b) hlen
    exact hna (infix_of_prefix_suffix h1 (List.drop_suffix i a))
  · push_neg at hlen
    have h2 : a.drop i <+: p :=
      List.prefix_of_prefix_length_le ((a.drop i).prefix_append b) hp (le_of_lt hlen)
    have hne : a.drop i ≠ [] := by
      intro h0
      have hlen0 := congrArg List.length h0
      simp only [List.length_drop, List.length_nil] at hlen0
      omega
    have hl2 : (a.drop i).getLast? = some c := by
      obtain ⟨u, hu⟩ := List.drop_suffix i a
      rw [← hlast]
      conv_rhs => rw [← hu]
      rw [List.getLast?_append_of_ne_nil _ hne]
    exact hc (h2.subset (List.mem_of_mem_getLast? hl2))

theorem replaceStamp_preserves {u entry rest : List Char} (now : String)
    (hna : ¬ stampPat <:+: u ++ entry)
    (hlast : (u ++ entry).getLast? = some '\n') :
    entry <:+: replaceStamp now ((u ++ entry) ++ rest) := by
  have hue : entry <:+: u ++ entry := ⟨u, [], by simp⟩
  unfold replaceStamp
  cases hm : findStampMatch ((u ++ entry) ++ rest) with
  | none => exact infix_append_of_left hue rest
  | some p =>
    obtain ⟨i, len⟩ := p
    have hpre : stampPat.isPrefixOf (((u ++ entry) ++ rest).drop i) = true :=
      findStampMatch_isPrefix _ (i, len) hm
    have hge : (u ++ entry).length ≤ i :=
      prefixAt_length_le hpre hna hlast (by decide)
    have htake : ((u ++ entry) ++ rest).take i =
        (u ++ entry) ++ rest.take (i - (u ++ entry).length) := by
      rw [List.take_append_eq_append_take, List.take_of_length_le hge]
    show entry <:+: ((u ++ entry) ++ rest).take i ++ ("*Last updated: " ++ now ++ "*").data ++
      ((u ++ entry) ++ rest).drop (i + len)
    rw [htake]
    exact infix_append_of_left (infix_append_of_left (infix_append_of_left hue _) _) _

theorem critiqueEntry_getLast (date feature critique : String) (suggestions : List String) :
    (critiqueEntry date feature critique suggestions).data.getLast? = some '\n' := by
  unfold critiqueEntry
  rw [String.data_append, List.getLast?_append_of_ne_nil _ (by decide)]
  rfl

theorem critiqueEntry_data_ne_nil (date feature critique : String)
    (suggestions : List String) : (critiqueEntry date feature critique suggestions).data ≠ [] := by
  intro h
  have hg := critiqueEntry_getLast date feature critique suggestions
  rw [h] at hg
  cases hg

theorem critique_infix_critiqueEntry (date feature critique : String)
    (suggestions : List String) :
    critique.data <:+: (critiqueEntry date feature critique suggestions).data := by
  refine ⟨("### " ++ date ++ ": " ++ feature ++ "\n" ++ "- **Issue**: ").data,
    ("\n" ++ (if 0 < suggestions.length then
        "- **Suggestions**: " ++ String.intercalate "; " suggestions ++ "\n"
      else "") ++ "\n").data, ?_⟩
  simp [critiqueEntry, String.data_append, List.append_assoc]

/-- The skillbook template after `addCritiqueToSkillbook` inserts the
Captain's Notes section before `## Patterns` (position 211 of the template
prefix). -/
def capInserted : List Char := insertAt tplPrefix.data captainSectionText.data 211

theorem addCritique_on_template (feature critique : String) (suggestions : List String)
    (date now : String)
    (hcap : ¬ ("## Captain's Notes".data <:+: (skillbookTemplate now).data)) :
    (addCritiqueToSkillbook (some (skillbookTemplate now)) feature critique suggestions
        date now).data =
      replaceStamp now
        ((capInserted.take 269 ++ (critiqueEntry date feature critique suggestions).data) ++
          (capInserted.drop 269 ++ (now.data ++ "*\n".data))) := by
  have hdata : (skillbookTemplate now).data = tplPrefix.data ++ (now.data ++ "*\n".data) := by
    simp [skillbookTemplate, String.data_append]
  have f1 : firstIdx "## Patterns".data (skillbookTemplate now).data = some 211 := by
    rw [hdata]
    exact firstIdx_append_left _ (by decide) (by decide)
  have hins : insertAt (skillbookTemplate now).data captainSectionText.data 211 =
      capInserted ++ (now.data ++ "*\n".data) := by
    rw [hdata, insertAt_append_left (by decide)]
    rfl
  have f2 : firstIdx "## Captain's Notes".data (capInserted ++ (now.data ++ "*\n".data)) =
      some 211 :=
    firstIdx_append_left _ (by decide) (by decide)
  have f3 : idxFrom "\n\n".data (capInserted ++ (now.data ++ "*\n".data)) 231 = some 267 := by
    unfold idxFrom
    rw [drop_append_le (by decide),
      @firstIdx_append_left "\n\n".data (capInserted.drop 231) 36 (now.data ++ "*\n".data)
        (by decide) (by decide)]
    rfl
  have hins2 : insertAt (capInserted ++ (now.data ++ "*\n".data))
      (critiqueEntry date feature critique suggestions).data 269 =
      (capInserted.take 269 ++ (critiqueEntry date feature critique suggestions).data) ++
        (capInserted.drop 269 ++ (now.data ++ "*\n".data)) := by
    rw [insertAt_append_left (by decide)]
    unfold insertAt
    simp [List.append_assoc]
  unfold addCritiqueToSkillbook
  dsimp only
  rw [if_neg hcap, f1]
  dsimp only
  rw [hins, f2]
  dsimp only
  rw [show (211 : Nat) + 20 = 231 from rfl, f3]
  dsimp only
  rw [show (267 : Nat) + 2 = 269 from rfl, hins2]

theorem entry_infix_addCritique (feature critique : String) (suggestions : List String)
    (date now : String)
    (hcap : ¬ ("## Captain's Notes".data <:+: (skillbookTemplate now).data))
    (hstamp : ¬ (stampPat <:+: (critiqueEntry date feature critique suggestions).data)) :
    (critiqueEntry date feature critique suggestions).data <:+:
      (addCritiqueToSkillbook (some (skillbookTemplate now)) feature critique suggestions
        date now).data := by
  rw [addCritique_on_template feature critique suggestions date now hcap]
  apply replaceStamp_preserves
  · exact not_infix_append_last (c := '\n') (by decide) hstamp (by decide) (by decide)
  · rw [List.getLast?_append_of_ne_nil _ (critiqueEntry_data_ne_nil date feature critique
      suggestions)]
    exact critiqueEntry_getLast date feature critique suggestions

theorem extractLearnings_none_of_no_patterns (msgs : List String) (now : String)
    (hs : successPatterns msgs = []) (hf : failurePatterns msgs = []) :
    extractLearnings none msgs now = skillbookTemplate now := by
  unfold extractLearnings
  rw [hs, hf]
  simp

theorem applyReviewFail_props {mem : SprintMemory} (h : mem.entries ≠ []) (r : ReviewResult) :
    ∃ last, (applyReviewFailToLast mem r).entries.getLast? = some last ∧
      last.result = MemResult.partialProgress ∧
      last.critique = some r.critique ∧
      ("Review failed: " ++ r.critique) ∈ last.failures := by
  unfold applyReviewFailToLast modifyLast
  cases hl : mem.entries.getLast? with
  | none => exact absurd (List.getLast?_eq_none_iff.mp hl) h
  | some last =>
    refine ⟨{ last with
      critique := some r.critique
      result := MemResult.partialProgress
      failures := last.failures ++
        (["Review failed: " ++ r.critique] ++
          (if 0 < r.suggestions.length then
            ["Suggestions: " ++ String.intercalate "; " r.suggestions]
          else [])) }, ?_, rfl, rfl, ?_⟩
    · simp
    · exact List.mem_append_right _ (List.mem_append_left _ (List.mem_singleton.mpr rfl))

theorem reviewFold_approved_noop (reviewOf : String → ReviewOutcome) (date now : String)
    (newly : List SprintFeature)
    (h : ∀ f ∈ newly, (reviewSubAgentResult (reviewOf f.description)).approved = true) :
    ∀ sp mem sb called,
      newly.foldl (reviewStep reviewOf date now) (sp, mem, sb, called) =
        (sp, mem, sb, called ++ newly.map (·.description)) := by
  induction newly with
  | nil => intro sp mem sb called; simp
  | cons f fs ih =>
    intro sp mem sb called
    rw [List.foldl_cons]
    have hf := h f (List.mem_cons_self f fs)
    have hstep : reviewStep reviewOf date now (sp, mem, sb, called) f =
        (sp, mem, sb, called ++ [f.description]) := by
      unfold reviewStep
      dsimp only
      rw [if_pos hf]
    rw [hstep, ih (fun g hg => h g (List.mem_cons_of_mem f hg))]
    simp

/-- C4 counterexample inputs: one feature newly passes, no test setup, the
review rejects it, and the pre-existing skillbook has neither a Captain's
Notes nor a Patterns section. -/
def c4SprintBefore : Sprint :=
  ⟨"demo", "in_progress", [⟨"f1", "add login", false⟩], none⟩

def c4SprintAfter : Sprint :=
  ⟨"demo", "in_progress", [⟨"f1", "add login", true⟩], none⟩

def c4LS : LoopState :=
  { sampleLS with sprint := some c4SprintBefore, skillbook := some "my notes" }

def c4Obs : IterationObs :=
  { sampleObs with
    sprintAfterSession := some c4SprintAfter
    reviewOf := fun _ => .parsed ⟨false, "bad code", ["add tests"]⟩ }

/-- C4 counterexample: the review rejects the newly-passed item, but because
the existing skillbook contains neither a `## Captain's Notes` nor a
`## Patterns` section, `addCritiqueToSkillbook` writes nothing — after the
gate the skillbook is unchanged and the critique does not appear in it,
contradicting the claim that the critique and suggestions are appended to
the skillbook. -/
theorem review_rejection_critique_not_added_counterexample :
    (reviewSubAgentResult (c4Obs.reviewOf "add login")).approved = false ∧
    (gateOf sampleCfg c4LS c4Obs).skillbook = some "my notes" ∧
    ¬ (("bad code").data <:+: ("my notes").data) := by
  refine ⟨rfl, by decide, by decide⟩

/-- C4 amended: when the independent review returns `approved = false` for
the newly-passed item of an iteration that passed the test gate, the item's
`passes` flag is reverted in the sprint file, the most recent memory entry's
outcome is downgraded to `partial` with the critique attached (regardless of
its previous outcome), and the critique entry — critique and suggestions —
is appended to the skillbook, verified here for the tool-created skillbook
(a pre-existing skillbook lacking both the Captain's Notes and the Patterns
sections is left unchanged, as the counterexample shows); when the review
returns `approved = true`, the sprint, memory and skillbook are left
unchanged. -/
theorem review_rejection_reverts_and_downgrades (cfg : LoopConfig) (ls : LoopState)
    (obs : IterationObs) (f : SprintFeature)
    (hdry : cfg.dryRun = false)
    (hnewly : newlyOf ls obs = [f])
    (hpass : (runTestGate obs.testEnv
      (sprintTestCommand (sprintAfterReadOf ls obs))).1.passed = true)
    (hnodup : ∀ sp, obs.sprintAfterSession = some sp →
      (sp.features.map (·.description)).Nodup)
    (hsb : ls.skillbook = none)
    (hsucc : successPatterns obs.recentCommits = [])
    (hfailp : failurePatterns obs.recentCommits = [])
    (hcap : ¬ ("## Captain's Notes".data <:+: (skillbookTemplate obs.now).data))
    (hstamp : ¬ (stampPat <:+: (critiqueEntry obs.date f.description
      (reviewSubAgentResult (obs.reviewOf f.description)).critique
      (reviewSubAgentResult (obs.reviewOf f.description)).suggestions).data)) :
    ((reviewSubAgentResult (obs.reviewOf f.description)).approved = false →
      (∃ sp₀ sp₁, obs.sprintAfterSession = some sp₀ ∧
        (gateOf cfg ls obs).sprint = some sp₁ ∧
        ∀ g ∈ sp₁.features, g.description = f.description → g.passes = false) ∧
      (∃ last, (gateOf cfg ls obs).memory.entries.getLast? = some last ∧
        last.result = MemResult.partialProgress ∧
        last.critique = some (reviewSubAgentResult (obs.reviewOf f.description)).critique ∧
        ("Review failed: " ++ (reviewSubAgentResult (obs.reviewOf f.description)).critique) ∈
          last.failures) ∧
      (∃ sb', (gateOf cfg ls obs).skillbook = some sb' ∧
        (critiqueEntry obs.date f.description
          (reviewSubAgentResult (obs.reviewOf f.description)).critique
          (reviewSubAgentResult (obs.reviewOf f.description)).suggestions).data <:+: sb'.data ∧
        ((reviewSubAgentResult (obs.reviewOf f.description)).critique).data <:+: sb'.data)) ∧
    ((reviewSubAgentResult (obs.reviewOf f.description)).approved = true →
      (gateOf cfg ls obs).sprint = obs.sprintAfterSession ∧
      (gateOf cfg ls obs).memory = memory1Of cfg ls obs ∧
      (gateOf cfg ls obs).skillbook = skillbook1Of ls obs) := by
  have hcond : 0 < (newlyOf ls obs).length ∧ ¬cfg.dryRun = true := by
    rw [hnewly]
    exact ⟨by simp, by simp [hdry]⟩
  obtain ⟨sp₀, hsp₀⟩ : ∃ sp₀, obs.sprintAfterSession = some sp₀ := by
    cases hs : obs.sprintAfterSession with
    | some sp => exact ⟨sp, rfl⟩
    | none =>
      exfalso
      have : newlyOf ls obs = [] := by
        unfold newlyOf sprintAfterReadOf
        rw [hs]
        cases pathOkOf ls <;> simp [getNewlyCompletedFeatures]
      rw [this] at hnewly
      cases hnewly
  have hnd := hnodup sp₀ hsp₀
  constructor
  · intro hr
    have hstep : reviewStep obs.reviewOf obs.date obs.now
        (obs.sprintAfterSession, memory1Of cfg ls obs, skillbook1Of ls obs, []) f =
        (revertFeature obs.sprintAfterSession f.description,
          applyReviewFailToLast (memory1Of cfg ls obs)
            (reviewSubAgentResult (obs.reviewOf f.description)),
          some (addCritiqueToSkillbook (skillbook1Of ls obs) f.description
            (reviewSubAgentResult (obs.reviewOf f.description)).critique
            (reviewSubAgentResult (obs.reviewOf f.description)).suggestions obs.date obs.now),
          [f.description]) := by
      unfold reviewStep
      dsimp only
      rw [if_neg (by rw [hr]; intro hc; cases hc)]
      rfl
    have hgate : gateOf cfg ls obs =
        ⟨revertFeature obs.sprintAfterSession f.description,
          applyReviewFailToLast (memory1Of cfg ls obs)
            (reviewSubAgentResult (obs.reviewOf f.description)),
          some (addCritiqueToSkillbook (skillbook1Of ls obs) f.description
            (reviewSubAgentResult (obs.reviewOf f.description)).critique
            (reviewSubAgentResult (obs.reviewOf f.description)).suggestions obs.date obs.now),
          (runTestGate obs.testEnv (sprintTestCommand (sprintAfterReadOf ls obs))).2,
          [f.description]⟩ := by
      unfold gateOf
      rw [if_pos hcond]
      unfold qualityGate
      rw [hnewly]
      simp only [hpass, if_true]
      rw [List.foldl_cons, List.foldl_nil, hstep]
    rw [hgate]
    have hsb1 : skillbook1Of ls obs = some (skillbookTemplate obs.now) := by
      unfold skillbook1Of
      rw [hsb, extractLearnings_none_of_no_patterns obs.recentCommits obs.now hsucc hfailp]
    refine ⟨⟨sp₀, { sp₀ with features := setPassesFalse sp₀.features f.description },
        hsp₀, by rw [hsp₀]; rfl, ?_⟩, ?_, ?_⟩
    · intro g hg hdesc
      rw [show ({ sp₀ with features := setPassesFalse sp₀.features f.description } :
          Sprint).features = setPassesFalse sp₀.features f.description from rfl,
        setPassesFalse_eq_map hnd] at hg
      obtain ⟨g₀, _, hg₀⟩ := List.mem_map.mp hg
      by_cases hin : g₀.description = f.description
      · rw [if_pos hin] at hg₀
        rw [← hg₀]
      · rw [if_neg hin] at hg₀
        subst hg₀
        exact absurd hdesc hin
    · exact applyReviewFail_props (by unfold memory1Of; simp) _
    · refine ⟨addCritiqueToSkillbook (skillbook1Of ls obs) f.description
        (reviewSubAgentResult (obs.reviewOf f.description)).critique
        (reviewSubAgentResult (obs.reviewOf f.description)).suggestions obs.date obs.now,
        rfl, ?_, ?_⟩
      · rw [hsb1]
        exact entry_infix_addCritique f.description
          (reviewSubAgentResult (obs.reviewOf f.description)).critique
          (reviewSubAgentResult (obs.reviewOf f.description)).suggestions obs.date obs.now
          hcap hstamp
      · rw [hsb1]
        exact (critique_infix_critiqueEntry obs.date f.description
          (reviewSubAgentResult (obs.reviewOf f.description)).critique
          (reviewSubAgentResult (obs.reviewOf f.description)).suggestions).trans
          (entry_infix_addCritique f.description
            (reviewSubAgentResult (obs.reviewOf f.description)).critique
            (reviewSubAgentResult (obs.reviewOf f.description)).suggestions obs.date obs.now
            hcap hstamp)
  · intro hr
    have hgate : gateOf cfg ls obs =
        ⟨obs.sprintAfterSession, memory1Of cfg ls obs, skillbook1Of ls obs,
          (runTestGate obs.testEnv (sprintTestCommand (sprintAfterReadOf ls obs))).2,
          [] ++ [f].map (·.description)⟩ := by
      unfold gateOf
      rw [if_pos hcond]
      unfold qualityGate
      rw [hnewly]
      simp only [hpass, if_true]
      rw [reviewFold_approved_noop obs.reviewOf obs.date obs.now [f]
        (by
          intro g hg
          rw [List.mem_singleton.mp hg]
          exact hr)
        obs.sprintAfterSession (memory1Of cfg ls obs) (skillbook1Of ls obs) []]
    rw [hgate]
    exact ⟨rfl, rfl, rfl⟩

/-- C4 witness inputs: the review rejects the single newly-passed feature;
the skillbook starts absent. -/
def c4wLS : LoopState := { sampleLS with sprint := some c4SprintBefore }

/-- Witness for C4's amended theorem: a concrete rejected review reverts the
feature, downgrades the memory entry to partial, and the critique appears in
the freshly created skillbook. -/
theorem review_rejection_reverts_and_downgrades_witness :
    ∃ sb', (gateOf sampleCfg c4wLS c4Obs).skillbook = some sb' ∧
      ("bad code").data <:+: sb'.data := by
  have h := (review_rejection_reverts_and_downgrades sampleCfg c4wLS c4Obs
    ⟨"f1", "add login", true⟩ rfl (by decide) (by decide)
    (by intro sp hsp; cases hsp; decide) rfl rfl rfl (by decide) (by decide)).1 rfl
  obtain ⟨-, -, sb', hsb', -, hcrit⟩ := h
  exact ⟨sb', hsb', hcrit⟩

end Shiplog
